import Mathlib

/-!
Verification of the swipe-to-word prediction core of HeyEyeUnified.

The definitions below are shallow embeddings of the C++ sources:
* `src/src/ranking_features.cpp` (`dtw_multivariate`, `get_word_path`,
  `compute_all_features`),
* `src/src/lightgbm_ranker.cpp` (`features_to_array`, `compute_enhanced_features`),
* `src/src/ml_helpers.cpp` (`load_vocab`, `search_faiss_index`),
* `TextInputEngine::RankCandidates` (candidate expansion, LM context replay and
  the fallback scorer).

`float` arithmetic is idealised as exact real (or rational) arithmetic; the
C++ sentinel `1e12f` used for the DTW border "infinity" is kept as the exact
constant `10^12`.
-/

namespace HeyEye

/-- A 2-D keyboard-coordinate point (`std::pair<float,float>`). -/
abbrev Point := ℝ × ℝ

/-- Euclidean cost between two 2-D points, as in the inner loop of
`dtw_multivariate`: `sqrt(dx*dx + dy*dy)`. -/
noncomputable def euclid (p q : Point) : ℝ :=
  Real.sqrt ((p.1 - q.1) * (p.1 - q.1) + (p.2 - q.2) * (p.2 - q.2))

/-- One row update of the two-rolling-rows DTW loop
(`ranking_features.cpp:58-75`), faithfully including the buffer reuse: the new
row holds `INF` at column 0, the freshly computed value inside the band
`[jlo, jhi]`, and the *stale* content of the reused buffer `curr` (the row
computed two iterations ago) everywhere else.  Inside the band the code reads
`prev_row[j]`, `curr_row[j-1]` (which is the new value when `j-1 ≥ jlo`, and
the stale buffer content when `j-1 = jlo - 1 > 0`) and `prev_row[j-1]`. -/
def dtwRow {α P : Type} [LinearOrder α] [Add α] (d : P → P → α) (infv : α)
    (ai : P) (B : List P) (dflt : P) (prev curr : ℕ → α) (jlo jhi : ℕ)
    (j : ℕ) : α :=
  if j = 0 then infv
  else if jlo ≤ j ∧ j ≤ jhi then
    d ai (B.getD (j - 1) dflt) +
      min (min (prev j) (dtwRow d infv ai B dflt prev curr jlo jhi (j - 1)))
        (prev (j - 1))
  else curr j

/-- The pair `(prev_row, curr_row)` of the rolling DTW loop after `i`
iterations of the outer loop of `dtw_multivariate`, including the
`std::swap(prev_row, curr_row)` at the end of each iteration: after the swap
the buffer that becomes `curr_row` is the one holding the row computed in the
previous iteration (`prev_row` before this iteration). -/
def dtwState {α P : Type} [LinearOrder α] [Add α] [Zero α] (d : P → P → α)
    (infv : α) (A B : List P) (dflt : P) (w : ℕ) (i : ℕ) :
    (ℕ → α) × (ℕ → α) :=
  if i = 0 then (fun j => if j = 0 then 0 else infv, fun _ => infv)
  else
    let s := dtwState d infv A B dflt w (i - 1)
    (dtwRow d infv (A.getD (i - 1) dflt) B dflt s.1 s.2
      (max 1 (i - w)) (min B.length (i + w)), s.1)

/-- The effective Sakoe–Chiba window of `dtw_multivariate`
(`ranking_features.cpp:46-49`): a negative `window` means `max(n, m)`, and the
result is clamped up to at least `|n - m|`. -/
def effWindow (n m : ℕ) (window : ℤ) : ℕ :=
  (max (if window < 0 then (max n m : ℤ) else window) |(n : ℤ) - m|).toNat

/-- The rolling two-row DTW distance of `ranking_features.cpp:38-78`, generic
in the point-cost function `d` (the source instantiates it with `euclid`);
`n == 0 || m == 0` returns `0` as in the source. -/
def dtwDist {α P : Type} [LinearOrderedField α] (d : P → P → α) (dflt : P)
    (A B : List P) (window : ℤ) : α :=
  if A.length = 0 ∨ B.length = 0 then 0
  else
    (dtwState d (10 ^ 12) A B dflt
        (effWindow A.length B.length window) A.length).1 B.length

/-- `dtw_multivariate` from `ranking_features.cpp:38-78`: rolling two-row
banded DTW with Euclidean 2-D cost; `window = -1` is the default argument of
the declaration in `ranking_features.h`. -/
noncomputable def dtw_multivariate (A B : List Point) (window : ℤ := -1) : ℝ :=
  dtwDist euclid ((0 : ℝ), (0 : ℝ)) A B window

/-- The classic full-matrix banded DTW cost, written from the spec's words
(§4.4): `cost[0][0] = 0`, all other borders `+infinity` (the code's
representable infinity `10^12`), and inside the band
`i - w ≤ j ≤ i + w` the recurrence
`cost[i][j] = dist(A[i-1], B[j-1]) + min(cost[i-1][j], cost[i][j-1], cost[i-1][j-1])`;
cells outside the band stay at `+infinity`. -/
def costM {α P : Type} [LinearOrder α] [Add α] [Zero α] (d : P → P → α)
    (infv : α) (A B : List P) (dflt : P) (w : ℕ) (i j : ℕ) : α :=
  if _hi : i = 0 then (if j = 0 then 0 else infv)
  else if _hj : j = 0 then infv
  else if (i : ℤ) - w ≤ (j : ℤ) ∧ (j : ℤ) ≤ (i : ℤ) + w then
    d (A.getD (i - 1) dflt) (B.getD (j - 1) dflt) +
      min (costM d infv A B dflt w (i - 1) j)
        (min (costM d infv A B dflt w i (j - 1))
          (costM d infv A B dflt w (i - 1) (j - 1)))
  else infv
termination_by (i, j)
decreasing_by
  · exact Prod.Lex.left _ _ (by omega)
  · exact Prod.Lex.right _ (by omega)
  · exact Prod.Lex.left _ _ (by omega)

/-- The full-matrix banded DTW of the spec (§4.4 and claim C1): the value
`cost[n][m]` of the classic recurrence, with the same degenerate-input
convention and the same effective window as the code. -/
noncomputable def dtwMatrixSpec (A B : List Point) (window : ℤ := -1) : ℝ :=
  if A.length = 0 ∨ B.length = 0 then 0
  else
    costM euclid (10 ^ 12) A B ((0 : ℝ), (0 : ℝ))
      (effWindow A.length B.length window) A.length B.length

/-- The first rolling row of the concrete DTW run used in the C1/C7
counterexamples (the `prev_row` initialisation `[0, INF, ..., INF]`). -/
def p0 : ℕ → ℝ := fun j => if j = 0 then 0 else 1000000000000

/-- The initial `curr_row` buffer of the same run (all `INF`). -/
def c0 : ℕ → ℝ := fun _ => 1000000000000


/-! ### Vocabulary loading (`ml_helpers.cpp`, `load_vocab`) -/

/-- The canonical-form construction loop of `load_vocab`
(`ml_helpers.cpp:38-44`), parameterised by the table size `sz`
(`vocabKeys->size()`, which is the number of clusters in the loaded map):
for each `(idx, words)` entry, `vocabKeys[idx] = words[0]` is executed only
when `!words.empty() && idx >= 0 && idx < sz`. -/
def setCanon (sz : ℕ) (acc : List String) (l : List (ℤ × List String)) :
    List String :=
  l.foldl
    (fun acc p =>
      if p.2 ≠ [] ∧ 0 ≤ p.1 ∧ p.1 < (sz : ℤ) then
        acc.set p.1.toNat (p.2.headD "")
      else acc)
    acc

/-- `load_vocab`'s canonical-form table (`ml_helpers.cpp:36-44`): a vector of
`deserialized_vocab->size()` default-constructed (empty) strings, then one
pass over the map setting in-range entries to the first word of their
cluster.  The map is given as its iteration sequence (ascending key order for
`std::map`). -/
def buildVocabKeys (m : List (ℤ × List String)) : List String :=
  setCanon m.length (List.replicate m.length "") m

/-! ### Candidate expansion and the fallback scorer
(`TextInputEngine::RankCandidates`, `src/unnamed/part_003:649-758`) -/

/-- Processing of one `faiss_pair` during candidate collection
(`part_003:654-695`): clusters absent from the vocabulary are skipped
(`m_vocab->find(...) == end`), and each word of the cluster is appended
(together with the cluster id and distance it was encountered at) unless it
is already in `seen_words`.  The state is `(collected candidates, seen)`. -/
def expandStep (vocab : ℤ → Option (List String))
    (st : List (String × ℤ × ℚ) × List String) (p : ℤ × ℚ) :
    List (String × ℤ × ℚ) × List String :=
  match vocab p.1 with
  | none => st
  | some ws =>
    ws.foldl
      (fun st w =>
        if w ∈ st.2 then st else (st.1 ++ [(w, p.1, p.2)], w :: st.2))
      st

/-- The deduplicated candidate list of `RankCandidates` step 2: the fold of
`expandStep` over the `faiss_results` map in its iteration order (ascending
cluster id), keeping for each word the cluster at which it was first
encountered. -/
def expandCandidates (vocab : ℤ → Option (List String))
    (cands : List (ℤ × ℚ)) : List (String × ℤ × ℚ) :=
  (cands.foldl (expandStep vocab) ([], [])).1

/-- The FAISS-distance lookup of the fallback scorer (`part_003:740-747`):
`faiss_distance` starts at `0.0`, the loop walks the candidates map in
iteration order calling `m_vocab->at(...)` — which throws (`.error`) when the
cluster id is missing — and breaks at the first cluster whose word list
contains the word. -/
def findFaissDistance (vocab : ℤ → Option (List String)) (w : String) :
    List (ℤ × ℚ) → Except Unit ℚ
  | [] => .ok 0
  | p :: rest =>
    match vocab p.1 with
    | none => .error ()
    | some ws =>
      if w ∈ ws then .ok p.2 else findFaissDistance vocab w rest

/-- Total version of `findFaissDistance`, used to state what the fallback
score is when every looked-up cluster id is present in the vocabulary. -/
def findDist (vocab : ℤ → Option (List String)) (w : String) :
    List (ℤ × ℚ) → ℚ
  | [] => 0
  | p :: rest =>
    if w ∈ (vocab p.1).getD [] then p.2 else findDist vocab w rest

/-- The fallback selection loop (`part_003:736-755`): `max_score` starts at
`-infinity` (`⊥`), each candidate word is scored
`lm_score - 0.5 * faiss_distance`, and the word is selected when its score is
strictly greater than the running maximum. -/
def fallbackGo (vocab : ℤ → Option (List String)) (cands : List (ℤ × ℚ)) :
    List (String × ℚ) → WithBot ℚ → String → Except Unit String
  | [], _, sel => .ok sel
  | (w, s) :: rest, best, sel =>
    match findFaissDistance vocab w cands with
    | .error e => .error e
    | .ok dist =>
      if best < ((s - (1 / 2 : ℚ) * dist : ℚ) : WithBot ℚ) then
        fallbackGo vocab cands rest ((s - (1 / 2 : ℚ) * dist : ℚ) : WithBot ℚ) w
      else fallbackGo vocab cands rest best sel

/-- The fallback branch of `RankCandidates` (ranker model absent or not
loaded): expand the candidate clusters into the deduplicated word list (each
paired with its language-model score, abstracted as the function `lm`), then
run the fallback selection loop with `max_score = -infinity` and
`selected_word = ""`.  An empty word list returns `""` as in
`part_003:697-700`. -/
def rankCandidatesFallback (vocab : ℤ → Option (List String))
    (cands : List (ℤ × ℚ)) (lm : String → ℚ) : Except Unit String :=
  let words := (expandCandidates vocab cands).map (·.1)
  if words = [] then .ok ""
  else fallbackGo vocab cands (words.map (fun w => (w, lm w))) ⊥ ""

/-! ### Language-model context replay (`part_003:604-647`) -/

/-- The context words of `RankCandidates` step 1 (`part_003:616-627`): the
current text is split at spaces by the external `wxSplit` (modelled by taking
the token sequence as input), empty tokens are dropped, and only the last 4
words are kept. -/
def contextWords (tokens : List String) : List String :=
  let ws := tokens.filter (fun w => w ≠ "")
  ws.drop (ws.length - 4)

/-- The replay loop of `part_003:630-638`: starting from a state and the
accumulated log-probability `0`, score each context word in turn (the
per-word scoring `Index`/`FullScore`, which may throw, is abstracted as the
`Except`-valued function `score`); an exception aborts the whole loop. -/
def replayGo {σ : Type} (score : σ → String → Except Unit (ℚ × σ)) :
    σ → ℚ → List String → Except Unit (σ × ℚ)
  | st, acc, [] => .ok (st, acc)
  | st, acc, w :: rest =>
    match score st w with
    | .error e => .error e
    | .ok r => replayGo score r.2 (acc + r.1) rest

/-- The shared LM context pre-computation of `RankCandidates` step 1
(`part_003:604-647`): replay the (at most 4) context words once from the
begin-sentence state; on any exception the state is reset to the
begin-sentence state and the accumulated log-probability to `0`
(`part_003:639-644`).  (For empty text the source skips the replay entirely,
which coincides with replaying the empty word list.) -/
def precomputeContext {σ : Type} (score : σ → String → Except Unit (ℚ × σ))
    (beginState : σ) (tokens : List String) : σ × ℚ :=
  match replayGo score beginState 0 (contextWords tokens) with
  | .ok r => r
  | .error _ => (beginState, 0)


/-- Ordered insertion-or-assignment of `std::map<idx_t, float>`: keys kept in
ascending order, an existing key's value is overwritten. -/
def mapInsert (l : List (ℤ × ℚ)) (k : ℤ) (v : ℚ) : List (ℤ × ℚ) :=
  match l with
  | [] => [(k, v)]
  | p :: rest =>
    if k < p.1 then (k, v) :: p :: rest
    else if k = p.1 then (k, v) :: rest
    else p :: mapInsert rest k v

/-- `search_faiss_index` (`ml_helpers.cpp:73-97`): the `(id, distance)` pairs
produced by the FAISS index in its output order are inserted into a
`std::map<idx_t, float>` (skipping `-1` ids), so the returned container
iterates in ascending *cluster id* order, regardless of distance order. -/
def search_faiss_index (pairs : List (ℤ × ℚ)) : List (ℤ × ℚ) :=
  pairs.foldl (fun acc p => if p.1 ≠ -1 then mapInsert acc p.1 p.2 else acc) []

/-- The two-cluster vocabulary of the C4 counterexample: the word `"chat"`
appears in clusters 1 and 2. -/
def vocabC4 : ℤ → Option (List String) := fun i =>
  if i = 1 then some ["chat"]
  else if i = 2 then some ["chat"] else none

/-- The single-cluster vocabulary of the C3 counterexample: only cluster 1
is present. -/
def vocabC3 : ℤ → Option (List String) := fun i =>
  if i = 1 then some ["chat"] else none

/-- Invariant of the candidate-collection fold after processing the prefix
`done` of the faiss-results iteration: collected words are pairwise distinct,
`seen_words` holds exactly the collected words, every collected candidate is
attributed to the first processed cluster whose word list contains it, and
every word of every processed (present) cluster has been collected. -/
def ExpandInv (vocab : ℤ → Option (List String)) (done : List (ℤ × ℚ))
    (st : List (String × ℤ × ℚ) × List String) : Prop :=
  (st.1.map (·.1)).Nodup ∧
  (∀ w, w ∈ st.2 ↔ w ∈ st.1.map (·.1)) ∧
  (∀ t ∈ st.1,
    done.find? (fun q => decide (t.1 ∈ (vocab q.1).getD [])) = some t.2) ∧
  (∀ q ∈ done, ∀ w ∈ (vocab q.1).getD [], w ∈ st.1.map (·.1))


/-! ### Candidate features (`ranking_features.h`, `lightgbm_ranker.cpp`) -/

/-- The `CandidateFeatures` struct of `ranking_features.h:9-72`, with `float`
fields as `ℝ` and `int` fields as `ℤ`. -/
structure CandidateFeatures where
  word : String
  lm_score : ℝ
  faiss_distance : ℝ
  faiss_rank : ℤ
  dtw_distance : ℝ
  dtw_rank : ℤ
  lm_normalized : ℝ
  faiss_normalized : ℝ
  dtw_normalized : ℝ
  lm_zscore : ℝ
  faiss_zscore : ℝ
  dtw_zscore : ℝ
  lm_gap_to_best : ℝ
  faiss_gap_to_best : ℝ
  dtw_gap_to_best : ℝ
  lm_percentile : ℝ
  faiss_percentile : ℝ
  dtw_percentile : ℝ
  rank_agreement : ℤ
  min_rank : ℤ
  is_top_faiss : ℝ
  is_top_dtw : ℝ
  is_top_in_both : ℝ
  log_faiss_distance : ℝ
  log_dtw_distance : ℝ
  inv_faiss_distance : ℝ
  inv_dtw_distance : ℝ
  faiss_rank_reciprocal : ℝ
  dtw_rank_reciprocal : ℝ
  lm_faiss_interaction : ℝ
  lm_dtw_interaction : ℝ
  faiss_dtw_interaction : ℝ
  dtw_raw : ℝ
  dtw_normalized_by_max : ℝ
  dtw_normalized_by_min : ℝ
  dtw_normalized_by_sum : ℝ
  len_swipe : ℤ
  len_word : ℤ
  path_length_ratio : ℝ
  word_length : ℤ

/-- A default all-zero record, standing for a value-initialised struct. -/
def cfDefault : CandidateFeatures :=
  ⟨"", 0, 0, 0, 0, 0, 0, 0, 0, 0, 0, 0, 0, 0, 0, 0, 0, 0, 0, 0, 0, 0, 0, 0,
   0, 0, 0, 0, 0, 0, 0, 0, 0, 0, 0, 0, 0, 0, 0, 0⟩

/-- `LightGBMRanker::Impl::features_to_array` (`lightgbm_ranker.cpp:38-85`):
the per-candidate row handed to the ranking model, in the exact
`feature_list.json` order (`dtw_raw` at index 0 through
`faiss_dtw_interaction` at index 38); `int` fields are widened to `double`
by the `push_back` calls. -/
def features_to_array (f : CandidateFeatures) : List ℝ :=
  [f.dtw_raw, f.dtw_normalized_by_max, f.dtw_normalized_by_min,
   f.dtw_normalized_by_sum, (f.len_swipe : ℝ), (f.len_word : ℝ),
   f.path_length_ratio, (f.word_length : ℝ), f.lm_score, f.faiss_distance,
   (f.faiss_rank : ℝ), f.dtw_distance, (f.dtw_rank : ℝ), f.lm_normalized,
   f.faiss_normalized, f.dtw_normalized, f.lm_zscore, f.faiss_zscore,
   f.dtw_zscore, f.lm_gap_to_best, f.faiss_gap_to_best, f.dtw_gap_to_best,
   f.lm_percentile, f.faiss_percentile, f.dtw_percentile,
   (f.rank_agreement : ℝ), (f.min_rank : ℝ), f.is_top_faiss, f.is_top_dtw,
   f.is_top_in_both, f.log_faiss_distance, f.log_dtw_distance,
   f.inv_faiss_distance, f.inv_dtw_distance, f.faiss_rank_reciprocal,
   f.dtw_rank_reciprocal, f.lm_faiss_interaction, f.lm_dtw_interaction,
   f.faiss_dtw_interaction]

/-- The row-major data matrix assembled by `LightGBMRanker::predict`
(`lightgbm_ranker.cpp:134-140`): the concatenation of the per-candidate
feature rows. -/
def predictMatrix (cs : List CandidateFeatures) : List ℝ :=
  cs.foldl (fun data c => data ++ features_to_array c) []


/-! ### Feature computation (`ranking_features.cpp:81-249`) -/

/-- `get_word_path` (`ranking_features.cpp:81-92`): map each character of a
word to its keyboard coordinate, silently skipping characters absent from the
table.  The global `keyboard_coord` table (built once by
`init_keyboard_coords`) is passed as the function `coord`; its concrete
contents are irrelevant to the claims below. -/
def get_word_path (coord : Char → Option Point) (word : List Char) :
    List Point :=
  word.foldl
    (fun acc c =>
      match coord c with
      | some pt => acc ++ [pt]
      | none => acc)
    []

/-- The `TempCandidateData` record of the first pass of
`compute_all_features` (`ranking_features.cpp:125-138`). -/
structure TempCandidateData where
  word : String
  lm_score : ℝ
  faiss_distance : ℝ
  faiss_rank : ℕ
  dtw_raw : ℝ
  dtw_normalized_by_max : ℝ
  dtw_normalized_by_min : ℝ
  dtw_normalized_by_sum : ℝ
  len_swipe : ℕ
  len_word : ℕ
  path_length_ratio : ℝ
  word_length : ℕ

/-- Default all-zero temp record. -/
def tempDefault : TempCandidateData := ⟨"", 0, 0, 0, 0, 0, 0, 0, 0, 0, 0, 0⟩

/-- State of the first pass of `compute_all_features`: collected temp
records, `seen_words`, the running `faiss_rank` (starting at 1) and the
running `lm_idx`. -/
structure Pass1State where
  temps : List TempCandidateData
  seen : List String
  rank : ℕ
  lmIdx : ℕ

/-- Processing of one word of a cluster in the first pass of
`compute_all_features` (`ranking_features.cpp:153-193`): a seen word is
skipped; otherwise the ideal path is derived from the cluster's *canonical*
spelling `vocabKeys->at(vocab_idx)` (`.at` throws on a missing id, modelled
by `none`), DTW is computed against the swipe path with the default window,
and `lm_idx` advances only while `lm_scores` has entries. -/
noncomputable def processWord (coord : Char → Option Point)
    (swipe_path : List Point) (p : ℤ × ℝ) (vocabKeys : ℤ → Option String)
    (lm_scores : List ℝ) (ost2 : Option Pass1State) (word : String) :
    Option Pass1State :=
  ost2.bind fun st2 =>
    if word ∈ st2.seen then some st2
    else
      (vocabKeys p.1).bind fun canonical =>
        let word_path := get_word_path coord canonical.toList
        let len_word := word_path.length
        let dtw_raw := dtw_multivariate swipe_path word_path
        let len_swipe := swipe_path.length
        let max_len := max len_swipe len_word
        let min_len := min len_swipe len_word
        let sum_len := len_swipe + len_word
        let dtw_normalized_by_max :=
          if 0 < max_len then dtw_raw / max_len else 0
        let dtw_normalized_by_min :=
          if 0 < min_len then dtw_raw / min_len else 0
        let dtw_normalized_by_sum :=
          if 0 < sum_len then dtw_raw / sum_len else 0
        let path_length_ratio :=
          if 0 < len_word then (len_swipe : ℝ) / len_word else 0
        let lm_pick :=
          if st2.lmIdx < lm_scores.length then
            (lm_scores.getD st2.lmIdx 0, st2.lmIdx + 1)
          else ((0 : ℝ), st2.lmIdx)
        some
          { temps := st2.temps ++
              [⟨word, lm_pick.1, p.2, st2.rank, dtw_raw,
                dtw_normalized_by_max, dtw_normalized_by_min,
                dtw_normalized_by_sum, len_swipe, len_word,
                path_length_ratio, word.length⟩],
            seen := word :: st2.seen,
            rank := st2.rank,
            lmIdx := lm_pick.2 }

/-- Processing of one `faiss_pair` in the first pass of
`compute_all_features` (`ranking_features.cpp:147-196`): look the cluster up
(`vocab->at`, throwing on a missing id), fold `processWord` over its word
list, and increment `faiss_rank` afterwards. -/
noncomputable def processCluster (coord : Char → Option Point)
    (swipe_path : List Point) (vocab : ℤ → Option (List String))
    (vocabKeys : ℤ → Option String) (lm_scores : List ℝ)
    (ost : Option Pass1State) (p : ℤ × ℝ) : Option Pass1State :=
  ost.bind fun st =>
    (vocab p.1).bind fun words_for_idx =>
      (words_for_idx.foldl
        (processWord coord swipe_path p vocabKeys lm_scores)
        (some st)).map fun st2 => { st2 with rank := st2.rank + 1 }

/-- The first pass of `compute_all_features`
(`ranking_features.cpp:143-196`): walk the faiss-results map in iteration
order, starting with no candidates, no seen words, `faiss_rank = 1` and
`lm_idx = 0`. -/
noncomputable def computeTemps (coord : Char → Option Point)
    (swipe_path : List Point) (faiss_results : List (ℤ × ℝ))
    (vocab : ℤ → Option (List String)) (vocabKeys : ℤ → Option String)
    (lm_scores : List ℝ) : Option Pass1State :=
  faiss_results.foldl
    (processCluster coord swipe_path vocab vocabKeys lm_scores)
    (some { temps := [], seen := [], rank := 1, lmIdx := 0 })

/-- The five per-cluster canonical-path-derived values of a temp candidate
(claim C9): raw DTW, its three normalisations and the ideal-path length. -/
def fieldsOf (t : TempCandidateData) : ℝ × ℝ × ℝ × ℝ × ℕ :=
  (t.dtw_raw, t.dtw_normalized_by_max, t.dtw_normalized_by_min,
    t.dtw_normalized_by_sum, t.len_word)

/-- The value that `fieldsOf` takes for every candidate produced from a
cluster with canonical spelling `canonical` (the same lets as
`processWord`). -/
noncomputable def clusterFields (coord : Char → Option Point)
    (swipe_path : List Point) (canonical : String) : ℝ × ℝ × ℝ × ℝ × ℕ :=
  let word_path := get_word_path coord canonical.toList
  let len_word := word_path.length
  let dtw_raw := dtw_multivariate swipe_path word_path
  let len_swipe := swipe_path.length
  let max_len := max len_swipe len_word
  let min_len := min len_swipe len_word
  let sum_len := len_swipe + len_word
  (dtw_raw,
    if 0 < max_len then dtw_raw / max_len else 0,
    if 0 < min_len then dtw_raw / min_len else 0,
    if 0 < sum_len then dtw_raw / sum_len else 0,
    len_word)

/-- `clusterFields` applied through the optional canonical-spelling lookup
(the value is irrelevant when the lookup fails, since no candidate is
produced then). -/
noncomputable def clusterFieldsOpt (coord : Char → Option Point)
    (swipe_path : List Point) : Option String → ℝ × ℝ × ℝ × ℝ × ℕ
  | none => (0, 0, 0, 0, 0)
  | some canonical => clusterFields coord swipe_path canonical

/-- The minimum of a candidate-column (`*std::min_element`; the lists it is
applied to are non-empty whenever the source evaluates it). -/
def listMin (l : List ℝ) : ℝ := l.foldl min (l.headD 0)

/-- The maximum of a candidate-column (`*std::max_element`). -/
def listMax (l : List ℝ) : ℝ := l.foldl max (l.headD 0)

/-- `compute_enhanced_features` (`lightgbm_ranker.cpp` helper,
`ranking_features_helper`): the straight-line derivation of the full
39-feature record from one candidate's raw signals and the candidate set's
columns, with `epsilon = 1e-6` in denominators. -/
noncomputable def compute_enhanced_features (word : String)
    (lm_score faiss_distance : ℝ) (faiss_rank : ℤ) (dtw_distance : ℝ)
    (dtw_rank : ℤ)
    (lm_scores_all faiss_distances_all dtw_distances_all : List ℝ)
    (dtw_raw dtw_normalized_by_max dtw_normalized_by_min
      dtw_normalized_by_sum : ℝ) (len_swipe len_word : ℤ)
    (path_length_ratio : ℝ) (word_length : ℤ) : CandidateFeatures :=
  let epsilon : ℝ := 1 / 1000000
  let lm_min := listMin lm_scores_all
  let lm_max := listMax lm_scores_all
  let faiss_min := listMin faiss_distances_all
  let faiss_max := listMax faiss_distances_all
  let dtw_min := listMin dtw_distances_all
  let dtw_max := listMax dtw_distances_all
  let lm_mean := lm_scores_all.sum / lm_scores_all.length
  let faiss_mean := faiss_distances_all.sum / faiss_distances_all.length
  let dtw_mean := dtw_distances_all.sum / dtw_distances_all.length
  let lm_std := Real.sqrt
    ((lm_scores_all.map (fun v => (v - lm_mean) * (v - lm_mean))).sum /
      lm_scores_all.length)
  let faiss_std := Real.sqrt
    ((faiss_distances_all.map
        (fun v => (v - faiss_mean) * (v - faiss_mean))).sum /
      faiss_distances_all.length)
  let dtw_std := Real.sqrt
    ((dtw_distances_all.map (fun v => (v - dtw_mean) * (v - dtw_mean))).sum /
      dtw_distances_all.length)
  { word := word
    lm_score := lm_score
    faiss_distance := faiss_distance
    faiss_rank := faiss_rank
    dtw_distance := dtw_distance
    dtw_rank := dtw_rank
    lm_normalized := (lm_score - lm_min) / (lm_max - lm_min + epsilon)
    faiss_normalized :=
      (faiss_distance - faiss_min) / (faiss_max - faiss_min + epsilon)
    dtw_normalized := (dtw_distance - dtw_min) / (dtw_max - dtw_min + epsilon)
    lm_zscore := (lm_score - lm_mean) / (lm_std + epsilon)
    faiss_zscore := (faiss_distance - faiss_mean) / (faiss_std + epsilon)
    dtw_zscore := (dtw_distance - dtw_mean) / (dtw_std + epsilon)
    lm_gap_to_best := lm_max - lm_score
    faiss_gap_to_best := faiss_distance - faiss_min
    dtw_gap_to_best := dtw_distance - dtw_min
    lm_percentile :=
      ((lm_scores_all.filter (fun v => v < lm_score)).length : ℝ) /
        lm_scores_all.length
    faiss_percentile :=
      ((faiss_distances_all.filter (fun v => faiss_distance < v)).length : ℝ) /
        faiss_distances_all.length
    dtw_percentile :=
      ((dtw_distances_all.filter (fun v => dtw_distance < v)).length : ℝ) /
        dtw_distances_all.length
    rank_agreement := |faiss_rank - dtw_rank|
    min_rank := min faiss_rank dtw_rank
    is_top_faiss := if faiss_rank = 1 then 1 else 0
    is_top_dtw := if dtw_rank = 1 then 1 else 0
    is_top_in_both := if faiss_rank = 1 ∧ dtw_rank = 1 then 1 else 0
    log_faiss_distance := Real.log (faiss_distance + epsilon)
    log_dtw_distance := Real.log (dtw_distance + epsilon)
    inv_faiss_distance := 1 / (faiss_distance + epsilon)
    inv_dtw_distance := 1 / (dtw_distance + epsilon)
    faiss_rank_reciprocal := 1 / (faiss_rank : ℝ)
    dtw_rank_reciprocal := 1 / (dtw_rank : ℝ)
    lm_faiss_interaction := lm_score * faiss_distance
    lm_dtw_interaction := lm_score * dtw_distance
    faiss_dtw_interaction := faiss_distance * dtw_distance
    dtw_raw := dtw_raw
    dtw_normalized_by_max := dtw_normalized_by_max
    dtw_normalized_by_min := dtw_normalized_by_min
    dtw_normalized_by_sum := dtw_normalized_by_sum
    len_swipe := len_swipe
    len_word := len_word
    path_length_ratio := path_length_ratio
    word_length := word_length }

/-- The DTW-rank assignment of `compute_all_features`
(`ranking_features.cpp:198-210`): given the index permutation produced by
`std::sort` on `dtw_normalized_by_max` (passed in as `dtwIdxs` because
`std::sort` leaves the relative order of equal keys unspecified), rank
`i + 1` goes to candidate `dtwIdxs[i]`; `dtw_ranks` starts value-initialised
to `0`. -/
def dtwRanks (idxs : List ℕ) (n : ℕ) : List ℕ :=
  (List.range idxs.length).foldl
    (fun acc i => acc.set (idxs.getD i 0) (i + 1)) (List.replicate n 0)

/-- `compute_all_features` (`ranking_features.cpp:116-249`): the first pass
collects the temp records, the second pass derives each candidate's full
39-feature record from its temp record, its DTW rank and the candidate
columns. -/
noncomputable def compute_all_features (coord : Char → Option Point)
    (swipe_path : List Point) (faiss_results : List (ℤ × ℝ))
    (vocab : ℤ → Option (List String)) (vocabKeys : ℤ → Option String)
    (lm_scores : List ℝ) (dtwIdxs : List ℕ) :
    Option (List CandidateFeatures) :=
  (computeTemps coord swipe_path faiss_results vocab vocabKeys
    lm_scores).map fun st =>
    let temps := st.temps
    let dtw_ranks := dtwRanks dtwIdxs temps.length
    let lm_scores_all := temps.map (·.lm_score)
    let faiss_distances_all := temps.map (·.faiss_distance)
    let dtw_distances_all := temps.map (·.dtw_normalized_by_max)
    (List.range temps.length).map fun i =>
      let temp := temps.getD i tempDefault
      compute_enhanced_features temp.word temp.lm_score temp.faiss_distance
        (temp.faiss_rank : ℤ) temp.dtw_normalized_by_max
        ((dtw_ranks.getD i 0 : ℕ) : ℤ) lm_scores_all faiss_distances_all
        dtw_distances_all temp.dtw_raw temp.dtw_normalized_by_max
        temp.dtw_normalized_by_min temp.dtw_normalized_by_sum
        (temp.len_swipe : ℤ) (temp.len_word : ℤ) temp.path_length_ratio
        (temp.word_length : ℤ)


/-- Keyboard-coordinate table of the C9 witness. -/
noncomputable def coordW : Char → Option Point := fun c =>
  if c = 'a' then some ((0 : ℝ), (0 : ℝ))
  else if c = 'b' then some ((1 : ℝ), (0 : ℝ)) else none

/-- Vocabulary of the C9 witness: one cluster with the two spellings
`"ab"` and `"ba"`. -/
def vocabW : ℤ → Option (List String) := fun i =>
  if i = 0 then some ["ab", "ba"] else none

/-- Canonical forms of the C9 witness. -/
def vkW : ℤ → Option String := fun i => if i = 0 then some "ab" else none

/-- The feature records of the C9 witness instance. -/
noncomputable def resW : List CandidateFeatures :=
  (compute_all_features coordW [] [((0 : ℤ), (2 : ℝ))] vocabW vkW []
    [0, 1]).getD []


-- THEOREMS

/-- With an effective window at least as large as both sequence lengths the
rolling rows compute exactly the full-matrix recurrence: row `i` of the state
agrees with `costM` at row `i` on all columns `j ≤ m`. -/
lemma dtwState_eq_costM {α P : Type} [LinearOrder α] [Add α] [Zero α]
    (d : P → P → α) (infv : α) (A B : List P) (dflt : P) (w : ℕ)
    (hw₁ : A.length ≤ w) (hw₂ : B.length ≤ w) :
    ∀ i, i ≤ A.length → ∀ j, j ≤ B.length →
      (dtwState d infv A B dflt w i).1 j = costM d infv A B dflt w i j := by
  intro i
  induction i with
  | zero =>
    intro _ j _
    rw [dtwState, costM]
    simp
  | succ i ih =>
    intro hi j hj
    have hjlo : max 1 (i + 1 - w) = 1 := by omega
    have hjhi : min B.length (i + 1 + w) = B.length := by omega
    rw [dtwState]
    simp only [Nat.succ_ne_zero, if_false, Nat.add_sub_cancel, hjlo, hjhi]
    induction j with
    | zero =>
      rw [dtwRow, costM]
      simp
    | succ j ihj =>
      have hj' : j ≤ B.length := Nat.le_of_succ_le hj
      have hband : ((i : ℤ) + 1) - w ≤ (j : ℤ) + 1 ∧ (j : ℤ) + 1 ≤ ((i : ℤ) + 1) + w := by
        constructor <;> omega
      rw [dtwRow, costM]
      simp only [Nat.succ_ne_zero, if_false, Nat.add_sub_cancel, dif_neg (Nat.succ_ne_zero i),
        dif_neg (Nat.succ_ne_zero j)]
      rw [if_pos ⟨Nat.one_le_iff_ne_zero.mpr (Nat.succ_ne_zero j), hj⟩]
      rw [if_pos (by push_cast; exact hband)]
      rw [ih (Nat.le_of_succ_le hi) (j + 1) hj, ih (Nat.le_of_succ_le hi) j hj',
        ihj hj']
      simp [min_assoc]
/-- The banded full-matrix cost is symmetric under swapping the two sequences
(together with transposing the cell indices) whenever the point cost is
symmetric. -/
lemma costM_symm {α P : Type} [LinearOrder α] [Add α] [Zero α]
    (d : P → P → α) (infv : α) (A B : List P) (dflt : P) (w : ℕ)
    (hd : ∀ p q, d p q = d q p) :
    ∀ i j, costM d infv A B dflt w i j = costM d infv B A dflt w j i := by
  have key : ∀ s i j, i + j = s →
      costM d infv A B dflt w i j = costM d infv B A dflt w j i := by
    intro s
    induction s using Nat.strong_induction_on with
    | _ s ihs =>
    intro i j hij
    by_cases hi : i = 0
    · subst hi
      by_cases hj : j = 0
      · subst hj
        rw [costM]
        conv_rhs => rw [costM]
        simp
      · rw [costM]
        conv_rhs => rw [costM]
        simp [hj]
    · by_cases hj : j = 0
      · subst hj
        rw [costM]
        conv_rhs => rw [costM]
        simp [hi]
      · rw [costM]
        conv_rhs => rw [costM]
        simp only [dif_neg hi, dif_neg hj]
        have hband : (((i : ℤ) - w ≤ (j : ℤ) ∧ (j : ℤ) ≤ (i : ℤ) + w)) ↔
            (((j : ℤ) - w ≤ (i : ℤ) ∧ (i : ℤ) ≤ (j : ℤ) + w)) := by omega
        by_cases hb : ((i : ℤ) - w ≤ (j : ℤ) ∧ (j : ℤ) ≤ (i : ℤ) + w)
        · rw [if_pos hb, if_pos (hband.mp hb)]
          rw [hd]
          rw [ihs (i - 1 + j) (by omega) (i - 1) j rfl,
            ihs (i + (j - 1)) (by omega) i (j - 1) rfl,
            ihs (i - 1 + (j - 1)) (by omega) (i - 1) (j - 1) rfl]
          rw [min_left_comm]
        · rw [if_neg hb, if_neg (fun hc => hb (hband.mpr hc))]
  intro i j
  exact key (i + j) i j rfl

/-- Every cell of the banded full-matrix cost is nonnegative when the point
cost and the border value are. -/
lemma costM_nonneg {α P : Type} [LinearOrder α] [AddCommMonoid α]
    [CovariantClass α α (· + ·) (· ≤ ·)]
    (d : P → P → α) (infv : α) (A B : List P) (dflt : P) (w : ℕ)
    (hd : ∀ p q, 0 ≤ d p q) (hinf : 0 ≤ infv) :
    ∀ i j, 0 ≤ costM d infv A B dflt w i j := by
  have key : ∀ s i j, i + j = s → 0 ≤ costM d infv A B dflt w i j := by
    intro s
    induction s using Nat.strong_induction_on with
    | _ s ihs =>
    intro i j hij
    rw [costM]
    by_cases hi : i = 0
    · subst hi
      by_cases hj : j = 0
      · simp [hj]
      · simp [hj, hinf]
    · by_cases hj : j = 0
      · simp [hi, hj, hinf]
      · simp only [dif_neg hi, dif_neg hj]
        by_cases hb : ((i : ℤ) - w ≤ (j : ℤ) ∧ (j : ℤ) ≤ (i : ℤ) + w)
        · rw [if_pos hb]
          have h1 := ihs (i - 1 + j) (by omega) (i - 1) j rfl
          have h2 := ihs (i + (j - 1)) (by omega) i (j - 1) rfl
          have h3 := ihs (i - 1 + (j - 1)) (by omega) (i - 1) (j - 1) rfl
          have : (0 : α) ≤ min (costM d infv A B dflt w (i - 1) j)
              (min (costM d infv A B dflt w i (j - 1))
                (costM d infv A B dflt w (i - 1) (j - 1))) :=
            le_min h1 (le_min h2 h3)
          calc (0 : α) = 0 + 0 := by rw [add_zero]
          _ ≤ _ := add_le_add (hd _ _) this
        · rw [if_neg hb]
          exact hinf
  intro i j
  exact key (i + j) i j rfl

/-- On the diagonal of the self-comparison the banded cost is `0`: the
recurrence can always extend the `(i-1, i-1)` cell with a zero-cost step. -/
lemma costM_diag {α P : Type} [LinearOrder α] [AddCommMonoid α]
    [CovariantClass α α (· + ·) (· ≤ ·)]
    (d : P → P → α) (infv : α) (A : List P) (dflt : P) (w : ℕ)
    (hd : ∀ p q, 0 ≤ d p q) (hdd : ∀ p, d p p = 0) (hinf : 0 ≤ infv) :
    ∀ i, costM d infv A A dflt w i i = 0 := by
  intro i
  induction i with
  | zero => rw [costM]; simp
  | succ i ih =>
    rw [costM]
    simp only [dif_neg (Nat.succ_ne_zero i)]
    rw [if_pos (by constructor <;> omega)]
    rw [Nat.add_sub_cancel, hdd, ih]
    have h1 := costM_nonneg d infv A A dflt w hd hinf i (i + 1)
    have h2 := costM_nonneg d infv A A dflt w hd hinf (i + 1) i
    rw [min_eq_right h2, min_eq_right h1, add_zero]
/-- Evaluation of the rolling-row loop on the concrete instance
A = [(1,0),(4,0),(1,0)], B = [(2,0),(3,0)], for the caller-supplied windows 1
and 3, for any cost function with the Euclidean values on these points. -/
lemma dtwDist_ex (d : Point → Point → ℝ)
    (h11 : d (1, 0) (2, 0) = 1) (h12 : d (1, 0) (3, 0) = 2)
    (h21 : d (4, 0) (2, 0) = 2) (h22 : d (4, 0) (3, 0) = 1) :
    dtwDist d ((0 : ℝ), (0 : ℝ)) [(1, 0), (4, 0), (1, 0)] [(2, 0), (3, 0)] 1 = 3 ∧
    dtwDist d ((0 : ℝ), (0 : ℝ)) [(1, 0), (4, 0), (1, 0)] [(2, 0), (3, 0)] 3 = 4 := by
  set r1 : ℕ → ℝ := dtwRow d 1000000000000 ((1:ℝ), (0:ℝ)) [((2:ℝ), (0:ℝ)), ((3:ℝ), (0:ℝ))] (0 : Point) p0 c0 1 2 with hr1
  have e1_0 : r1 0 = 1000000000000 := by rw [hr1, dtwRow]; norm_num
  have e1_1 : r1 1 = 1 := by
    rw [hr1, dtwRow, ← hr1]; norm_num [p0, e1_0, h11, min_def]
  have e1_2 : r1 2 = 3 := by
    rw [hr1, dtwRow, ← hr1]; norm_num [p0, e1_1, h12, min_def]
  set r2 : ℕ → ℝ := dtwRow d 1000000000000 ((4:ℝ), (0:ℝ)) [((2:ℝ), (0:ℝ)), ((3:ℝ), (0:ℝ))] (0 : Point) r1 p0 1 2 with hr2
  have e2_0 : r2 0 = 1000000000000 := by rw [hr2, dtwRow]; norm_num
  have e2_1 : r2 1 = 3 := by
    rw [hr2, dtwRow, ← hr2]; norm_num [e1_0, e1_1, e2_0, h21, min_def]
  have e2_2 : r2 2 = 2 := by
    rw [hr2, dtwRow, ← hr2]; norm_num [e1_1, e1_2, e2_1, h22, min_def]
  set r3n : ℕ → ℝ := dtwRow d 1000000000000 ((1:ℝ), (0:ℝ)) [((2:ℝ), (0:ℝ)), ((3:ℝ), (0:ℝ))] (0 : Point) r2 r1 2 2 with hr3n
  have e3n_1 : r3n 1 = 1 := by rw [hr3n, dtwRow]; norm_num [e1_1]
  have e3n_2 : r3n 2 = 3 := by
    rw [hr3n, dtwRow, ← hr3n]; norm_num [e2_1, e2_2, e3n_1, h12, min_def]
  set r3w : ℕ → ℝ := dtwRow d 1000000000000 ((1:ℝ), (0:ℝ)) [((2:ℝ), (0:ℝ)), ((3:ℝ), (0:ℝ))] (0 : Point) r2 r1 1 2 with hr3w
  have e3w_0 : r3w 0 = 1000000000000 := by rw [hr3w, dtwRow]; norm_num
  have e3w_1 : r3w 1 = 4 := by
    rw [hr3w, dtwRow, ← hr3w]; norm_num [e2_0, e2_1, e3w_0, h11, min_def]
  have e3w_2 : r3w 2 = 4 := by
    rw [hr3w, dtwRow, ← hr3w]; norm_num [e2_1, e2_2, e3w_1, h12, min_def]
  have s0 : ∀ w : ℕ, dtwState d 1000000000000 [((1:ℝ), (0:ℝ)), (4, 0), (1, 0)] [((2:ℝ), (0:ℝ)), ((3:ℝ), (0:ℝ))] (0 : Point) w 0 = (p0, c0) := by
    intro w; rw [dtwState]; norm_num; exact ⟨rfl, rfl⟩
  have s1n : dtwState d 1000000000000 [((1:ℝ), (0:ℝ)), (4, 0), (1, 0)] [((2:ℝ), (0:ℝ)), ((3:ℝ), (0:ℝ))] (0 : Point) 1 1 = (r1, p0) := by
    rw [dtwState]; norm_num [s0]
  have s2n : dtwState d 1000000000000 [((1:ℝ), (0:ℝ)), (4, 0), (1, 0)] [((2:ℝ), (0:ℝ)), ((3:ℝ), (0:ℝ))] (0 : Point) 1 2 = (r2, r1) := by
    rw [dtwState]; norm_num [s1n]
  have s3n : dtwState d 1000000000000 [((1:ℝ), (0:ℝ)), (4, 0), (1, 0)] [((2:ℝ), (0:ℝ)), ((3:ℝ), (0:ℝ))] (0 : Point) 1 3 = (r3n, r2) := by
    rw [dtwState]; norm_num [s2n]
  have s1w : dtwState d 1000000000000 [((1:ℝ), (0:ℝ)), (4, 0), (1, 0)] [((2:ℝ), (0:ℝ)), ((3:ℝ), (0:ℝ))] (0 : Point) 3 1 = (r1, p0) := by
    rw [dtwState]; norm_num [s0]
  have s2w : dtwState d 1000000000000 [((1:ℝ), (0:ℝ)), (4, 0), (1, 0)] [((2:ℝ), (0:ℝ)), ((3:ℝ), (0:ℝ))] (0 : Point) 3 2 = (r2, r1) := by
    rw [dtwState]; norm_num [s1w]
  have s3w : dtwState d 1000000000000 [((1:ℝ), (0:ℝ)), (4, 0), (1, 0)] [((2:ℝ), (0:ℝ)), ((3:ℝ), (0:ℝ))] (0 : Point) 3 3 = (r3w, r2) := by
    rw [dtwState]; norm_num [s2w]
  constructor
  · rw [dtwDist]
    norm_num [effWindow, s3n, e3n_2]
  · rw [dtwDist]
    have h3 : ((3 : ℤ).toNat) = 3 := rfl
    norm_num [effWindow, h3, s3w, e3w_2]

lemma costM_ex (d : Point → Point → ℝ)
    (h11 : d (1, 0) (2, 0) = 1) (h12 : d (1, 0) (3, 0) = 2)
    (h21 : d (4, 0) (2, 0) = 2) (h22 : d (4, 0) (3, 0) = 1) :
    costM d 1000000000000 [((1:ℝ), (0:ℝ)), (4, 0), (1, 0)] [((2:ℝ), (0:ℝ)), ((3:ℝ), (0:ℝ))] (0 : Point) 1 3 2 = 4 := by
  set A : List Point := [((1:ℝ), (0:ℝ)), (4, 0), (1, 0)] with hA
  set B : List Point := [((2:ℝ), (0:ℝ)), ((3:ℝ), (0:ℝ))] with hB
  have c00 : costM d 1000000000000 A B (0 : Point) 1 0 0 = 0 := by rw [costM]; norm_num
  have c01 : costM d 1000000000000 A B (0 : Point) 1 0 1 = 1000000000000 := by rw [costM]; norm_num
  have c02 : costM d 1000000000000 A B (0 : Point) 1 0 2 = 1000000000000 := by rw [costM]; norm_num
  have c10 : costM d 1000000000000 A B (0 : Point) 1 1 0 = 1000000000000 := by rw [costM]; norm_num
  have c20 : costM d 1000000000000 A B (0 : Point) 1 2 0 = 1000000000000 := by rw [costM]; norm_num
  have c11 : costM d 1000000000000 A B (0 : Point) 1 1 1 = 1 := by
    rw [costM]; norm_num [hA, hB, c01, c10, c00, h11, min_def]
  have c12 : costM d 1000000000000 A B (0 : Point) 1 1 2 = 3 := by
    rw [costM]; norm_num [hA, hB, c02, c11, c01, h12, min_def]
  have c21 : costM d 1000000000000 A B (0 : Point) 1 2 1 = 3 := by
    rw [costM]; norm_num [hA, hB, c11, c20, c10, h21, min_def]
  have c22 : costM d 1000000000000 A B (0 : Point) 1 2 2 = 2 := by
    rw [costM]; norm_num [hA, hB, c12, c21, c11, h22, min_def]
  have c31 : costM d 1000000000000 A B (0 : Point) 1 3 1 = 1000000000000 := by
    rw [costM]; norm_num
  have c32 : costM d 1000000000000 A B (0 : Point) 1 3 2 = 4 := by
    rw [costM]; norm_num [hA, hB, c22, c31, c21, h12, min_def]
  exact c32

lemma euclid_horiz (a b r : ℝ) (h : 0 ≤ r) (habs : (a - b) * (a - b) = r * r) :
    euclid (a, 0) (b, 0) = r := by
  show Real.sqrt ((a - b) * (a - b) + ((0:ℝ) - 0) * ((0:ℝ) - 0)) = r
  rw [habs]
  norm_num [Real.sqrt_mul_self h]

lemma euclid_12 : euclid (1, 0) (2, 0) = 1 := euclid_horiz 1 2 1 (by norm_num) (by norm_num)
lemma euclid_13 : euclid (1, 0) (3, 0) = 2 := euclid_horiz 1 3 2 (by norm_num) (by norm_num)
lemma euclid_42 : euclid (4, 0) (2, 0) = 2 := euclid_horiz 4 2 2 (by norm_num) (by norm_num)
lemma euclid_43 : euclid (4, 0) (3, 0) = 1 := euclid_horiz 4 3 1 (by norm_num) (by norm_num)


/-- **C1** (code_bug evidence) — the rolling two-row `dtw_multivariate` does
*not* equal the classic full-matrix banded DTW recurrence for every window:
on the non-empty sequences `A = [(1,0),(4,0),(1,0)]`, `B = [(2,0),(3,0)]` with
window `1`, the code returns `3` while the full-matrix recurrence
(`dtwMatrixSpec`) gives `4`.  The cause: when the band's left edge
`jstart = i - window` exceeds `1`, the code reads `curr_row[jstart-1]`, which
still holds the value of row `i - 2` from the reused buffer instead of the
`+infinity` border, admitting an invalid warping path that skips row
`i - 1`. -/
theorem c1_dtw_rolling_differs_from_full_matrix :
    dtw_multivariate [(1, 0), (4, 0), (1, 0)] [(2, 0), (3, 0)] 1 = 3 ∧
    dtwMatrixSpec [(1, 0), (4, 0), (1, 0)] [(2, 0), (3, 0)] 1 = 4 := by
  constructor
  · exact (dtwDist_ex euclid euclid_12 euclid_13 euclid_42 euclid_43).1
  · rw [dtwMatrixSpec]
    norm_num [effWindow, costM_ex euclid euclid_12 euclid_13 euclid_42 euclid_43]

/-- **C7** (code_bug evidence) — increasing the Sakoe–Chiba window *can*
increase the distance computed by `dtw_multivariate`: on
`A = [(1,0),(4,0),(1,0)]`, `B = [(2,0),(3,0)]` the window-1 result is `3`
but the window-3 result is `4` (the window-1 value is spuriously low because
of the stale-buffer read described at C1), so monotonicity in the window
fails for the code as written. -/
theorem c7_dtw_window_monotonicity_fails :
    dtw_multivariate [(1, 0), (4, 0), (1, 0)] [(2, 0), (3, 0)] 1 = 3 ∧
    dtw_multivariate [(1, 0), (4, 0), (1, 0)] [(2, 0), (3, 0)] 3 = 4 ∧
    ¬ dtw_multivariate [(1, 0), (4, 0), (1, 0)] [(2, 0), (3, 0)] 3 ≤
        dtw_multivariate [(1, 0), (4, 0), (1, 0)] [(2, 0), (3, 0)] 1 := by
  obtain ⟨h1, h3⟩ := dtwDist_ex euclid euclid_12 euclid_13 euclid_42 euclid_43
  refine ⟨h1, h3, ?_⟩
  rw [dtw_multivariate, dtw_multivariate, h1, h3]
  norm_num

/-- The Euclidean point cost is symmetric. -/
lemma euclid_symm (p q : Point) : euclid p q = euclid q p := by
  unfold euclid
  congr 1
  ring

/-- The Euclidean point cost of a point with itself is `0`. -/
lemma euclid_self (p : Point) : euclid p p = 0 := by
  simp [euclid]

/-- The Euclidean point cost is nonnegative. -/
lemma euclid_nonneg (p q : Point) : 0 ≤ euclid p q := Real.sqrt_nonneg _

/-- With the default argument `window = -1` the effective window is
`max n m`. -/
lemma effWindow_neg (n m : ℕ) : effWindow n m (-1) = max n m := by
  simp only [effWindow, if_pos (by norm_num : (-1 : ℤ) < 0)]
  rcases abs_cases ((n : ℤ) - m) with ⟨he, hc⟩ | ⟨he, hc⟩ <;> rw [he] <;> omega

/-- With the default window the rolling two-row loop computes exactly the
full-matrix DTW recurrence. -/
lemma dtwDist_default {α P : Type} [LinearOrderedField α] (d : P → P → α)
    (dflt : P) (A B : List P) :
    dtwDist d dflt A B (-1) =
      if A.length = 0 ∨ B.length = 0 then 0
      else costM d (10 ^ 12) A B dflt (max A.length B.length)
        A.length B.length := by
  rw [dtwDist, effWindow_neg]
  by_cases h : A.length = 0 ∨ B.length = 0
  · rw [if_pos h, if_pos h]
  · rw [if_neg h, if_neg h]
    exact dtwState_eq_costM d (10 ^ 12) A B dflt _ (le_max_left _ _)
      (le_max_right _ _) A.length le_rfl B.length le_rfl

/-- **C6** — with the default (symmetric) window, `dtw_multivariate` is
symmetric under swapping its two input sequences, and the self-distance
`dtw_multivariate A A` is `0`.  Proved by showing the default-window rolling
loop equal to the full-matrix recurrence and then establishing symmetry and
the zero diagonal of that recurrence for the (symmetric, nonnegative,
reflexive-zero) Euclidean cost. -/
theorem c6_dtw_symmetric_and_self_distance_zero :
    (∀ A B : List Point, dtw_multivariate A B = dtw_multivariate B A) ∧
    (∀ A : List Point, dtw_multivariate A A = 0) := by
  constructor
  · intro A B
    rw [dtw_multivariate, dtw_multivariate, dtwDist_default, dtwDist_default]
    by_cases h : A.length = 0 ∨ B.length = 0
    · rw [if_pos h, if_pos h.symm]
    · rw [if_neg h, if_neg (fun hc => h hc.symm)]
      rw [max_comm B.length A.length]
      exact costM_symm euclid (10 ^ 12) A B ((0 : ℝ), (0 : ℝ)) _ euclid_symm
        A.length B.length
  · intro A
    rw [dtw_multivariate, dtwDist_default]
    by_cases h : A.length = 0 ∨ A.length = 0
    · rw [if_pos h]
    · rw [if_neg h, max_self]
      exact costM_diag euclid (10 ^ 12) A ((0 : ℝ), (0 : ℝ)) A.length
        euclid_nonneg euclid_self (by norm_num) A.length

lemma getD_set_self {α : Type} (l : List α) (k : ℕ) (v d : α)
    (h : k < l.length) : (l.set k v).getD k d = v := by
  rw [List.getD_eq_getD_get?, List.get?_eq_getElem?, List.getElem?_set_eq_of_lt _ h]
  rfl

lemma getD_set_ne {α : Type} (l : List α) (k : ℕ) (v d : α) (i : ℕ)
    (h : k ≠ i) : (l.set k v).getD i d = l.getD i d := by
  rw [List.getD_eq_getD_get?, List.getD_eq_getD_get?, List.get?_eq_getElem?,
    List.get?_eq_getElem?, List.getElem?_set_ne h]

lemma setCanon_length (sz : ℕ) (l : List (ℤ × List String)) :
    ∀ acc, (setCanon sz acc l).length = acc.length := by
  induction l with
  | nil => intro acc; rfl
  | cons p t ih =>
    intro acc
    show (setCanon sz _ t).length = _
    rw [ih]
    by_cases hc : p.2 ≠ [] ∧ 0 ≤ p.1 ∧ p.1 < (sz : ℤ)
    · simp only [if_pos hc, List.length_set]
    · simp only [if_neg hc]

/-- Entries of the map whose key is not `i` never write slot `i`. -/
lemma setCanon_getD_keyfree (sz : ℕ) (l : List (ℤ × List String)) :
    ∀ acc (i : ℕ), ((i : ℤ) ∉ l.map Prod.fst) →
      (setCanon sz acc l).getD i "" = acc.getD i "" := by
  induction l with
  | nil => intro acc i _; rfl
  | cons p t ih =>
    intro acc i hi
    show (setCanon sz _ t).getD i "" = _
    rw [ih _ i (fun hmem => hi (by simp [hmem]))]
    by_cases hc : p.2 ≠ [] ∧ 0 ≤ p.1 ∧ p.1 < (sz : ℤ)
    · simp only [if_pos hc]
      have hk : p.1.toNat ≠ i := by
        intro he
        apply hi
        simp only [List.map_cons, List.mem_cons]
        left
        omega
      rw [getD_set_ne _ _ _ _ _ hk]
    · simp only [if_neg hc]

/-- Entries whose word list is empty never write their slot either. -/
lemma setCanon_getD_empty (sz : ℕ) (l : List (ℤ × List String)) :
    ∀ acc (i : ℕ), (∀ ws, ((i : ℤ), ws) ∈ l → ws = []) →
      (setCanon sz acc l).getD i "" = acc.getD i "" := by
  induction l with
  | nil => intro acc i _; rfl
  | cons p t ih =>
    intro acc i hi
    show (setCanon sz _ t).getD i "" = _
    rw [ih _ i (fun ws hmem => hi ws (List.mem_cons_of_mem _ hmem))]
    by_cases hc : p.2 ≠ [] ∧ 0 ≤ p.1 ∧ p.1 < (sz : ℤ)
    · simp only [if_pos hc]
      have hk : p.1.toNat ≠ i := by
        intro he
        apply hc.1
        apply hi p.2
        have : p.1 = (i : ℤ) := by omega
        rw [← this]
        exact List.mem_cons_self _ _
      rw [getD_set_ne _ _ _ _ _ hk]
    · simp only [if_neg hc]

/-- The entry of cluster `idx` (unique by key-nodup), when its word list is
non-empty and `idx` is in range, determines slot `idx`. -/
lemma setCanon_getD_present (sz : ℕ) (l : List (ℤ × List String)) :
    ∀ acc, acc.length = sz → (l.map Prod.fst).Nodup →
      ∀ (idx : ℤ) ws, (idx, ws) ∈ l → 0 ≤ idx → idx < (sz : ℤ) → ws ≠ [] →
        (setCanon sz acc l).getD idx.toNat "" = ws.headD "" := by
  induction l with
  | nil => intro acc _ _ idx ws hmem; exact absurd hmem (List.not_mem_nil _)
  | cons p t ih =>
    intro acc hlen hnd idx ws hmem h0 hsz hne
    rw [List.map_cons, List.nodup_cons] at hnd
    rcases List.mem_cons.mp hmem with heq | hmem'
    · cases heq
      show (setCanon sz _ t).getD idx.toNat "" = _
      have hkey : (idx : ℤ) ∉ t.map Prod.fst := by
        simpa using hnd.1
      rw [setCanon_getD_keyfree sz t _ idx.toNat (by rwa [Int.toNat_of_nonneg h0])]
      simp only [if_pos (show ((idx, ws).2 ≠ [] ∧ 0 ≤ (idx, ws).1 ∧
        (idx, ws).1 < (sz : ℤ)) from ⟨hne, h0, hsz⟩)]
      exact getD_set_self _ _ _ _ (by rw [hlen]; omega)
    · have hne' : p.1 ≠ idx := by
        intro he
        apply hnd.1
        rw [he]
        exact List.mem_map_of_mem Prod.fst hmem'
      show (setCanon sz _ t).getD idx.toNat "" = _
      by_cases hc : p.2 ≠ [] ∧ 0 ≤ p.1 ∧ p.1 < (sz : ℤ)
      · simp only [if_pos hc]
        exact ih _ (by rw [List.length_set]; exact hlen) hnd.2 idx ws hmem' h0 hsz hne
      · simp only [if_neg hc]
        exact ih _ hlen hnd.2 idx ws hmem' h0 hsz hne

/-- **C10** — `load_vocab` sizes the canonical-form table to the number of
clusters in the loaded map; entry `i` is the first spelling of cluster `i`
exactly when `0 ≤ i < size` and the cluster's word list is non-empty, and a
slot whose cluster is absent, out of range, or has an empty word list
silently keeps the empty canonical form. -/
theorem c10_load_vocab_canonical_forms (m : List (ℤ × List String))
    (hnd : (m.map Prod.fst).Nodup) :
    (buildVocabKeys m).length = m.length ∧
    (∀ (idx : ℤ) ws, (idx, ws) ∈ m → 0 ≤ idx → idx < (m.length : ℤ) →
      ws ≠ [] → (buildVocabKeys m).getD idx.toNat "" = ws.headD "") ∧
    (∀ i : ℕ, i < m.length → (∀ ws, ((i : ℤ), ws) ∈ m → ws = []) →
      (buildVocabKeys m).getD i "" = "") := by
  refine ⟨?_, ?_, ?_⟩
  · rw [buildVocabKeys, setCanon_length, List.length_replicate]
  · intro idx ws hmem h0 hsz hne
    exact setCanon_getD_present m.length m _ (List.length_replicate _ _) hnd
      idx ws hmem h0 hsz hne
  · intro i _ hemp
    rw [buildVocabKeys, setCanon_getD_empty m.length m _ i hemp,
      List.getD_eq_getD_get?, List.get?_eq_getElem?, List.getElem?_replicate]
    split <;> rfl

/-- Witness for C10 on the concrete map
`{0 ↦ ["chat","chatte"], 1 ↦ [], 2 ↦ ["x"], 5 ↦ ["far"]}`: the table has 4
entries, slot 0 holds `"chat"`, and slot 1 (empty word list) holds `""`
(cluster 5 is out of range and writes nothing). -/
theorem c10_load_vocab_witness :
    (buildVocabKeys [(0, ["chat", "chatte"]), (1, []), (2, ["x"]),
        (5, ["far"])]).length = 4 ∧
    (buildVocabKeys [(0, ["chat", "chatte"]), (1, []), (2, ["x"]),
        (5, ["far"])]).getD 0 "" = "chat" ∧
    (buildVocabKeys [(0, ["chat", "chatte"]), (1, []), (2, ["x"]),
        (5, ["far"])]).getD 1 "" = "" := by
  have h := c10_load_vocab_canonical_forms
    [(0, ["chat", "chatte"]), (1, []), (2, ["x"]), (5, ["far"])] (by decide)
  refine ⟨h.1, h.2.1 0 ["chat", "chatte"] (by decide) (by decide) (by decide)
    (by decide), h.2.2 1 (by decide) ?_⟩
  intro ws h
  simp only [List.mem_cons, List.not_mem_nil, or_false, Prod.mk.injEq] at h
  rcases h with ⟨h1, h2⟩ | ⟨h1, h2⟩ | ⟨h1, h2⟩ | ⟨h1, h2⟩ <;>
    first
      | exact h2
      | exact absurd h1 (by norm_num)

/-- **C5** — before scoring candidates, `RankCandidates` pre-computes one
shared LM context: the replayed word list is at most the last 4 words (a
suffix of the split text of length ≤ 4) replayed once, and if the replay
raises an exception the pre-computed state is the begin-sentence state with
accumulated log-probability `0` (never a partially accumulated one), while a
successful replay yields exactly the replayed state and accumulated
log-probability. -/
theorem c5_context_replay_last4_and_reset {σ : Type}
    (score : σ → String → Except Unit (ℚ × σ)) (beginState : σ)
    (tokens : List String) :
    (contextWords tokens).length ≤ 4 ∧
    (contextWords tokens) <:+ (tokens.filter (fun w => w ≠ "")) ∧
    (∀ e, replayGo score beginState 0 (contextWords tokens) = .error e →
      precomputeContext score beginState tokens = (beginState, 0)) ∧
    (∀ r, replayGo score beginState 0 (contextWords tokens) = .ok r →
      precomputeContext score beginState tokens = r) := by
  refine ⟨?_, ?_, ?_, ?_⟩
  · rw [contextWords]
    simp only [List.length_drop]
    omega
  · rw [contextWords]
    exact List.drop_suffix _ _
  · intro e he
    rw [precomputeContext, he]
  · intro r hr
    rw [precomputeContext, hr]

/-- Witness for C5: a concrete scorer that fails on the word `"oov"`; the
text `"a b c d e oov"` has context words `["c","d","e","oov"]`, the replay
fails, and the pre-computed context is the begin state `0` with
log-probability `0`. -/
theorem c5_context_replay_witness :
    precomputeContext
      (fun (st : ℕ) (w : String) =>
        if w = "oov" then Except.error () else Except.ok ((1 : ℚ), st + 1))
      0 ["a", "b", "c", "d", "e", "oov"] = (0, 0) :=
  (c5_context_replay_last4_and_reset
    (fun (st : ℕ) (w : String) =>
      if w = "oov" then Except.error () else Except.ok ((1 : ℚ), st + 1))
    0 ["a", "b", "c", "d", "e", "oov"]).2.2.1 () (by rfl)

/-- The inner word loop of `expandStep` preserves the invariant lifted to
`done ++ [p]`, only appends to the collected list, and afterwards contains
every word it processed. -/
lemma expand_inner (vocab : ℤ → Option (List String)) (done : List (ℤ × ℚ))
    (p : ℤ × ℚ) (ws : List String) (hv : vocab p.1 = some ws) :
    ∀ (ws' : List String) (st : List (String × ℤ × ℚ) × List String),
      (∀ w ∈ ws', w ∈ ws) →
      ((st.1.map (·.1)).Nodup ∧
        (∀ w, w ∈ st.2 ↔ w ∈ st.1.map (·.1)) ∧
        (∀ t ∈ st.1, (done ++ [p]).find?
          (fun q => decide (t.1 ∈ (vocab q.1).getD [])) = some t.2) ∧
        (∀ q ∈ done, ∀ w ∈ (vocab q.1).getD [], w ∈ st.1.map (·.1))) →
      (((ws'.foldl (fun st w =>
          if w ∈ st.2 then st else (st.1 ++ [(w, p.1, p.2)], w :: st.2))
          st).1.map (·.1)).Nodup ∧
        (∀ w, w ∈ (ws'.foldl (fun st w =>
          if w ∈ st.2 then st else (st.1 ++ [(w, p.1, p.2)], w :: st.2))
          st).2 ↔ w ∈ (ws'.foldl (fun st w =>
          if w ∈ st.2 then st else (st.1 ++ [(w, p.1, p.2)], w :: st.2))
          st).1.map (·.1)) ∧
        (∀ t ∈ (ws'.foldl (fun st w =>
          if w ∈ st.2 then st else (st.1 ++ [(w, p.1, p.2)], w :: st.2))
          st).1, (done ++ [p]).find?
          (fun q => decide (t.1 ∈ (vocab q.1).getD [])) = some t.2) ∧
        (∀ q ∈ done, ∀ w ∈ (vocab q.1).getD [], w ∈ (ws'.foldl (fun st w =>
          if w ∈ st.2 then st else (st.1 ++ [(w, p.1, p.2)], w :: st.2))
          st).1.map (·.1))) ∧
      (∀ x, x ∈ st.1.map (·.1) → x ∈ (ws'.foldl (fun st w =>
        if w ∈ st.2 then st else (st.1 ++ [(w, p.1, p.2)], w :: st.2))
        st).1.map (·.1)) ∧
      (∀ w ∈ ws', w ∈ (ws'.foldl (fun st w =>
        if w ∈ st.2 then st else (st.1 ++ [(w, p.1, p.2)], w :: st.2))
        st).1.map (·.1)) := by
  intro ws'
  induction ws' with
  | nil =>
    intro st _ hH
    exact ⟨hH, fun x hx => hx, by simp⟩
  | cons w rest ih =>
    intro st hsub hH
    obtain ⟨hnd, hiff, hfind, hdone⟩ := hH
    by_cases hseen : w ∈ st.2
    · have hst : (if w ∈ st.2 then st
          else (st.1 ++ [(w, p.1, p.2)], w :: st.2)) = st := if_pos hseen
      rw [List.foldl_cons, hst]
      obtain ⟨hH', hmono, hpost⟩ :=
        ih st (fun x hx => hsub x (List.mem_cons_of_mem _ hx))
          ⟨hnd, hiff, hfind, hdone⟩
      refine ⟨hH', hmono, ?_⟩
      intro x hx
      rcases List.mem_cons.mp hx with rfl | hx'
      · exact hmono x ((hiff x).mp hseen)
      · exact hpost x hx'
    · have hwfst : w ∉ st.1.map (·.1) := fun hc => hseen ((hiff w).mpr hc)
      have hst : (if w ∈ st.2 then st
          else (st.1 ++ [(w, p.1, p.2)], w :: st.2)) =
          (st.1 ++ [(w, p.1, p.2)], w :: st.2) := if_neg hseen
      rw [List.foldl_cons, hst]
      have hw_in_ws : w ∈ ws := hsub w (List.mem_cons_self _ _)
      -- the new state satisfies the hypotheses
      have hnd' : (((st.1 ++ [(w, p.1, p.2)]).map (·.1)).Nodup) := by
        rw [List.map_append, List.nodup_append]
        exact ⟨hnd, List.nodup_singleton _,
          fun x hx hx' => hwfst (by
            rcases List.mem_singleton.mp hx' with rfl
            exact hx)⟩
      have hiff' : ∀ w', w' ∈ w :: st.2 ↔
          w' ∈ (st.1 ++ [(w, p.1, p.2)]).map (·.1) := by
        intro w'
        rw [List.map_append, List.mem_append, List.mem_cons]
        constructor
        · rintro (rfl | hw')
          · right; simp
          · left; exact (hiff w').mp hw'
        · rintro (hw' | hw')
          · right; exact (hiff w').mpr hw'
          · left; simpa using hw'
      have hfind' : ∀ t ∈ st.1 ++ [(w, p.1, p.2)],
          (done ++ [p]).find?
            (fun q => decide (t.1 ∈ (vocab q.1).getD [])) = some t.2 := by
        intro t ht
        rcases List.mem_append.mp ht with ht' | ht'
        · exact hfind t ht'
        · rcases List.mem_singleton.mp ht' with rfl
          have hnone : done.find?
              (fun q => decide (w ∈ (vocab q.1).getD [])) = none := by
            rw [List.find?_eq_none]
            intro q hq hpq
            exact hwfst (hdone q hq w (by simpa using hpq))
          rw [List.find?_append, hnone]
          have : (List.find? (fun q => decide (w ∈ (vocab q.1).getD [])) [p])
              = some p := by
            apply List.find?_cons_of_pos
            rw [hv]
            simpa using hw_in_ws
          rw [this]
          rfl
      have hdone' : ∀ q ∈ done, ∀ x ∈ (vocab q.1).getD [],
          x ∈ (st.1 ++ [(w, p.1, p.2)]).map (·.1) := by
        intro q hq x hx
        rw [List.map_append, List.mem_append]
        exact Or.inl (hdone q hq x hx)
      obtain ⟨hH', hmono, hpost⟩ :=
        ih (st.1 ++ [(w, p.1, p.2)], w :: st.2)
          (fun x hx => hsub x (List.mem_cons_of_mem _ hx))
          ⟨hnd', fun w' => hiff' w', hfind', hdone'⟩
      refine ⟨hH', ?_, ?_⟩
      · intro x hx
        apply hmono
        rw [List.map_append, List.mem_append]
        exact Or.inl hx
      · intro x hx
        rcases List.mem_cons.mp hx with rfl | hx'
        · apply hmono
          rw [List.map_append, List.mem_append]
          right; simp
        · exact hpost x hx'
/-- Processing further clusters preserves the expansion invariant. -/
lemma expand_outer (vocab : ℤ → Option (List String)) :
    ∀ (cands' : List (ℤ × ℚ)) (done : List (ℤ × ℚ))
      (st : List (String × ℤ × ℚ) × List String),
      ExpandInv vocab done st →
      ExpandInv vocab (done ++ cands') (cands'.foldl (expandStep vocab) st) := by
  intro cands'
  induction cands' with
  | nil =>
    intro done st h
    simpa using h
  | cons p rest ih =>
    intro done st h
    obtain ⟨hnd, hiff, hfind, hdone⟩ := h
    have hlift : ∀ t ∈ st.1, (done ++ [p]).find?
        (fun q => decide (t.1 ∈ (vocab q.1).getD [])) = some t.2 := by
      intro t ht
      rw [List.find?_append, hfind t ht]
      rfl
    have hstep : ExpandInv vocab (done ++ [p]) (expandStep vocab st p) := by
      rw [expandStep]
      cases hv : vocab p.1 with
      | none =>
        refine ⟨hnd, hiff, hlift, ?_⟩
        intro q hq x hx
        rcases List.mem_append.mp hq with hq' | hq'
        · exact hdone q hq' x hx
        · rcases List.mem_singleton.mp hq' with rfl
          rw [hv] at hx
          simp at hx
      | some ws =>
        obtain ⟨⟨hnd', hiff', hfind', hdone'⟩, _hmono, hpost⟩ :=
          expand_inner vocab done p ws hv ws st (fun _ hx => hx)
            ⟨hnd, hiff, hlift, hdone⟩
        refine ⟨hnd', hiff', hfind', ?_⟩
        intro q hq x hx
        rcases List.mem_append.mp hq with hq' | hq'
        · exact hdone' q hq' x hx
        · rcases List.mem_singleton.mp hq' with rfl
          rw [hv] at hx
          exact hpost x (by simpa using hx)
    have := ih (done ++ [p]) (expandStep vocab st p) hstep
    rw [List.foldl_cons]
    simpa using this

/-- The expansion of the whole candidate map satisfies the invariant. -/
lemma expandCandidates_inv (vocab : ℤ → Option (List String))
    (cands : List (ℤ × ℚ)) :
    ExpandInv vocab cands (cands.foldl (expandStep vocab) ([], [])) := by
  have h := expand_outer vocab cands [] ([], [])
    ⟨List.nodup_nil, by simp, by simp, by simp⟩
  simpa using h

/-- **C4** (counterexample) — the index's raw results, ordered ascending by
distance, list cluster 2 (distance `1`) before cluster 1 (distance `9`); the
word `"chat"` appears in both clusters.  The claim says the word is
attributed to the first (nearer) cluster encountered, i.e. cluster 2 at
distance `1`; but `search_faiss_index` stores the results in a `std::map`
keyed by cluster id, so `RankCandidates` iterates in ascending id order and
attributes `"chat"` to cluster 1 at distance `9` — the farther cluster. -/
theorem c4_counterexample_nearer_cluster :
    (1 : ℚ) < 9 ∧
    search_faiss_index [(2, 1), (1, 9)] = [(1, 9), (2, 1)] ∧
    expandCandidates vocabC4 (search_faiss_index [(2, 1), (1, 9)]) =
      [("chat", 1, 9)] := by
  decide

/-- **C4** (amended) — within one prediction request a word spelling is
included in the candidate set exactly once (the collected word spellings are
pairwise distinct and every word of every returned, vocabulary-present
cluster is collected), attributed to the first cluster *in the map's
iteration order* (ascending cluster id) whose word list contains it —
regardless of distance. -/
theorem c4_dedup_attributes_first_in_id_order
    (vocab : ℤ → Option (List String)) (cands : List (ℤ × ℚ)) :
    ((expandCandidates vocab cands).map (·.1)).Nodup ∧
    (∀ t ∈ expandCandidates vocab cands,
      cands.find? (fun q => decide (t.1 ∈ (vocab q.1).getD [])) = some t.2) ∧
    (∀ q ∈ cands, ∀ w ∈ (vocab q.1).getD [],
      w ∈ (expandCandidates vocab cands).map (·.1)) := by
  obtain ⟨h1, _h2, h3, h4⟩ := expandCandidates_inv vocab cands
  exact ⟨h1, h3, h4⟩

/-- Witness for the amended C4 on the counterexample instance: `"chat"` is
collected once, and its recorded cluster is the first in id order containing
it, `(1, 9)`. -/
theorem c4_dedup_witness :
    ("chat", (1 : ℤ), (9 : ℚ)) ∈
      expandCandidates vocabC4 [(1, 9), (2, 1)] ∧
    List.find?
      (fun q => decide ("chat" ∈ (vocabC4 q.1).getD []))
      [((1 : ℤ), (9 : ℚ)), (2, 1)] = some (1, 9) :=
  ⟨by decide,
    (c4_dedup_attributes_first_in_id_order vocabC4 [(1, 9), (2, 1)]).2.1
      ("chat", (1 : ℤ), (9 : ℚ)) (by decide)⟩

lemma findFaissDistance_ok (vocab : ℤ → Option (List String)) (w : String) :
    ∀ cands, (∀ p ∈ cands, (vocab p.1).isSome) →
      findFaissDistance vocab w cands = .ok (findDist vocab w cands) := by
  intro cands
  induction cands with
  | nil => intro _; rfl
  | cons p rest ih =>
    intro h
    rw [findFaissDistance, findDist]
    cases hv : vocab p.1 with
    | none =>
      exact absurd (h p (List.mem_cons_self _ _)) (by simp [hv])
    | some ws =>
      simp only [hv, Option.getD_some]
      by_cases hw : w ∈ ws
      · rw [if_pos hw, if_pos hw]
      · rw [if_neg hw, if_neg hw]
        exact ih (fun q hq => h q (List.mem_cons_of_mem _ hq))

/-- Specification of the fallback selection loop: it always returns `ok`
when every distance lookup succeeds, and the returned word is either the
incoming `selected_word` (when no score beats the incoming maximum) or a
processed word whose score beats the incoming maximum and bounds every
processed score. -/
lemma fallbackGo_spec (vocab : ℤ → Option (List String))
    (cands : List (ℤ × ℚ)) (hv : ∀ p ∈ cands, (vocab p.1).isSome) :
    ∀ (L : List (String × ℚ)) (best : WithBot ℚ) (sel : String),
      ∃ r, fallbackGo vocab cands L best sel = .ok r ∧
        (((∀ p ∈ L,
            ((p.2 - (1 / 2 : ℚ) * findDist vocab p.1 cands : ℚ) : WithBot ℚ) ≤
              best) ∧ r = sel) ∨
          (∃ p ∈ L, r = p.1 ∧
            best <
              ((p.2 - (1 / 2 : ℚ) * findDist vocab p.1 cands : ℚ) : WithBot ℚ) ∧
            ∀ q ∈ L,
              ((q.2 - (1 / 2 : ℚ) * findDist vocab q.1 cands : ℚ) : WithBot ℚ) ≤
                max ((p.2 - (1 / 2 : ℚ) * findDist vocab p.1 cands : ℚ) :
                  WithBot ℚ) best)) := by
  intro L
  induction L with
  | nil =>
    intro best sel
    exact ⟨sel, rfl, Or.inl ⟨by simp, rfl⟩⟩
  | cons hd rest ih =>
    intro best sel
    obtain ⟨w, s⟩ := hd
    rw [fallbackGo, findFaissDistance_ok vocab w cands hv]
    simp only
    by_cases hlt : best < ((s - (1 / 2 : ℚ) * findDist vocab w cands : ℚ) : WithBot ℚ)
    · rw [if_pos hlt]
      obtain ⟨r, hr, hcase⟩ :=
        ih ((s - (1 / 2 : ℚ) * findDist vocab w cands : ℚ) : WithBot ℚ) w
      refine ⟨r, hr, Or.inr ?_⟩
      rcases hcase with ⟨hall, heq⟩ | ⟨p, hp, hrp, hlt2, hbound⟩
      · refine ⟨(w, s), List.mem_cons_self _ _, heq, hlt, ?_⟩
        intro q hq
        rcases List.mem_cons.mp hq with rfl | hq'
        · exact le_max_left _ _
        · exact le_trans (hall q hq') (le_max_left _ _)
      · refine ⟨p, List.mem_cons_of_mem _ hp, hrp, lt_trans hlt hlt2, ?_⟩
        intro q hq
        rcases List.mem_cons.mp hq with rfl | hq'
        · exact le_trans (le_of_lt hlt2) (le_max_left _ _)
        · calc ((q.2 - (1 / 2 : ℚ) * findDist vocab q.1 cands : ℚ) : WithBot ℚ)
              ≤ max ((p.2 - (1 / 2 : ℚ) * findDist vocab p.1 cands : ℚ) : WithBot ℚ)
                ((w, s).2 - (1 / 2 : ℚ) * findDist vocab (w, s).1 cands : ℚ) :=
            hbound q hq'
          _ = ((p.2 - (1 / 2 : ℚ) * findDist vocab p.1 cands : ℚ) : WithBot ℚ) :=
            max_eq_left (le_of_lt hlt2)
          _ ≤ _ := le_max_left _ _
    · rw [if_neg hlt]
      obtain ⟨r, hr, hcase⟩ := ih best sel
      refine ⟨r, hr, ?_⟩
      rcases hcase with ⟨hall, heq⟩ | ⟨p, hp, hrp, hlt2, hbound⟩
      · refine Or.inl ⟨?_, heq⟩
        intro q hq
        rcases List.mem_cons.mp hq with rfl | hq'
        · exact le_of_not_lt hlt
        · exact hall q hq'
      · refine Or.inr ⟨p, List.mem_cons_of_mem _ hp, hrp, hlt2, ?_⟩
        intro q hq
        rcases List.mem_cons.mp hq with rfl | hq'
        · exact le_trans (le_of_not_lt hlt) (le_max_right _ _)
        · exact hbound q hq'

/-- **C3** (counterexample) — the ranker is absent, the deduplicated
candidate set is the non-empty `["chat"]` (cluster 0 is skipped by the
`find`-guard during expansion), yet `RankCandidates` does not return a word:
the fallback scorer's distance lookup calls `m_vocab->at(0)` without the
guard used during expansion, and the missing cluster id 0 throws
`std::out_of_range` (modelled as `.error`). -/
theorem c3_counterexample_missing_cluster_throws :
    expandCandidates vocabC3 [(0, 2), (1, 1)] ≠ [] ∧
    rankCandidatesFallback vocabC3 [(0, 2), (1, 1)] (fun _ => 0) =
      .error () :=
  ⟨by decide, by rfl⟩

/-- **C3** (amended) — whenever the ranker model is absent and the
deduplicated candidate set is non-empty, *and every returned cluster id is
present in the vocabulary map*, the fallback of `RankCandidates` returns a
word of the candidate set that maximises the fallback score
`lm_score - 0.5 * faiss_distance` over the candidate set (the distance of a
word being that of the first cluster, in map iteration order, whose word
list contains it). -/
theorem c3_fallback_returns_maximiser (vocab : ℤ → Option (List String))
    (cands : List (ℤ × ℚ)) (lm : String → ℚ)
    (hv : ∀ p ∈ cands, (vocab p.1).isSome)
    (hne : (expandCandidates vocab cands).map (·.1) ≠ []) :
    ∃ w, rankCandidatesFallback vocab cands lm = .ok w ∧
      w ∈ (expandCandidates vocab cands).map (·.1) ∧
      ∀ w' ∈ (expandCandidates vocab cands).map (·.1),
        lm w' - (1 / 2 : ℚ) * findDist vocab w' cands ≤
          lm w - (1 / 2 : ℚ) * findDist vocab w cands := by
  rw [rankCandidatesFallback]
  simp only [if_neg hne]
  obtain ⟨r, hr, hcase⟩ := fallbackGo_spec vocab cands hv
    (((expandCandidates vocab cands).map (·.1)).map (fun w => (w, lm w))) ⊥ ""
  rcases hcase with ⟨hall, _⟩ | ⟨p, hp, hrp, _, hbound⟩
  · obtain ⟨w, hw⟩ := List.exists_mem_of_ne_nil _ hne
    exact absurd (hall (w, lm w) (List.mem_map_of_mem _ hw))
      (by simp)
  · obtain ⟨w, hw, hwp⟩ := List.mem_map.mp hp
    cases hwp
    refine ⟨r, hr, ?_, ?_⟩
    · rw [hrp]
      exact hw
    · intro w' hw'
      have hq := hbound (w', lm w') (List.mem_map_of_mem _ hw')
      rw [sup_bot_eq] at hq
      rw [hrp]
      exact WithBot.coe_le_coe.mp hq

/-- Witness for the amended C3: with both returned clusters present in the
vocabulary, the fallback returns a maximising word of the non-empty
deduplicated candidate set. -/
theorem c3_fallback_witness :
    ∃ w, rankCandidatesFallback vocabC4 [(1, 9), (2, 1)] (fun _ => 0) =
      .ok w ∧
      w ∈ (expandCandidates vocabC4 [(1, 9), (2, 1)]).map (·.1) ∧
      ∀ w' ∈ (expandCandidates vocabC4 [(1, 9), (2, 1)]).map (·.1),
        (fun _ => (0 : ℚ)) w' -
            (1 / 2 : ℚ) * findDist vocabC4 w' [(1, 9), (2, 1)] ≤
          (fun _ => (0 : ℚ)) w -
            (1 / 2 : ℚ) * findDist vocabC4 w [(1, 9), (2, 1)] :=
  c3_fallback_returns_maximiser vocabC4 [(1, 9), (2, 1)] (fun _ => 0)
    (by decide) (by decide)

/-- Length of the assembled prediction matrix: 39 entries per candidate. -/
lemma predictMatrix_length (cs : List CandidateFeatures) :
    (predictMatrix cs).length = 39 * cs.length := by
  have key : ∀ (l : List CandidateFeatures) (acc : List ℝ),
      (l.foldl (fun data c => data ++ features_to_array c) acc).length =
        acc.length + 39 * l.length := by
    intro l
    induction l with
    | nil => intro acc; simp
    | cons c t ih =>
      intro acc
      rw [List.foldl_cons, ih]
      simp [features_to_array]
      ring
  have h := key cs []
  simpa using h

/-- **C2** — for every candidate set, the feature array handed to the
ranking model has exactly 39 entries per candidate (the row-major matrix has
`39 * n` entries), and for each candidate the row is in the fixed documented
order: `dtw_raw` at index 0 through `faiss_dtw_interaction` at index 38. -/
theorem c2_feature_array_39_fixed_order (cs : List CandidateFeatures) :
    (predictMatrix cs).length = 39 * cs.length ∧
    ∀ c ∈ cs, (features_to_array c).length = 39 ∧
      (features_to_array c).getD 0 0 = c.dtw_raw ∧
      (features_to_array c).getD 1 0 = c.dtw_normalized_by_max ∧
      (features_to_array c).getD 2 0 = c.dtw_normalized_by_min ∧
      (features_to_array c).getD 3 0 = c.dtw_normalized_by_sum ∧
      (features_to_array c).getD 4 0 = ((c.len_swipe : ℝ)) ∧
      (features_to_array c).getD 5 0 = ((c.len_word : ℝ)) ∧
      (features_to_array c).getD 6 0 = c.path_length_ratio ∧
      (features_to_array c).getD 7 0 = ((c.word_length : ℝ)) ∧
      (features_to_array c).getD 8 0 = c.lm_score ∧
      (features_to_array c).getD 9 0 = c.faiss_distance ∧
      (features_to_array c).getD 10 0 = ((c.faiss_rank : ℝ)) ∧
      (features_to_array c).getD 11 0 = c.dtw_distance ∧
      (features_to_array c).getD 12 0 = ((c.dtw_rank : ℝ)) ∧
      (features_to_array c).getD 13 0 = c.lm_normalized ∧
      (features_to_array c).getD 14 0 = c.faiss_normalized ∧
      (features_to_array c).getD 15 0 = c.dtw_normalized ∧
      (features_to_array c).getD 16 0 = c.lm_zscore ∧
      (features_to_array c).getD 17 0 = c.faiss_zscore ∧
      (features_to_array c).getD 18 0 = c.dtw_zscore ∧
      (features_to_array c).getD 19 0 = c.lm_gap_to_best ∧
      (features_to_array c).getD 20 0 = c.faiss_gap_to_best ∧
      (features_to_array c).getD 21 0 = c.dtw_gap_to_best ∧
      (features_to_array c).getD 22 0 = c.lm_percentile ∧
      (features_to_array c).getD 23 0 = c.faiss_percentile ∧
      (features_to_array c).getD 24 0 = c.dtw_percentile ∧
      (features_to_array c).getD 25 0 = ((c.rank_agreement : ℝ)) ∧
      (features_to_array c).getD 26 0 = ((c.min_rank : ℝ)) ∧
      (features_to_array c).getD 27 0 = c.is_top_faiss ∧
      (features_to_array c).getD 28 0 = c.is_top_dtw ∧
      (features_to_array c).getD 29 0 = c.is_top_in_both ∧
      (features_to_array c).getD 30 0 = c.log_faiss_distance ∧
      (features_to_array c).getD 31 0 = c.log_dtw_distance ∧
      (features_to_array c).getD 32 0 = c.inv_faiss_distance ∧
      (features_to_array c).getD 33 0 = c.inv_dtw_distance ∧
      (features_to_array c).getD 34 0 = c.faiss_rank_reciprocal ∧
      (features_to_array c).getD 35 0 = c.dtw_rank_reciprocal ∧
      (features_to_array c).getD 36 0 = c.lm_faiss_interaction ∧
      (features_to_array c).getD 37 0 = c.lm_dtw_interaction ∧
      (features_to_array c).getD 38 0 = c.faiss_dtw_interaction := by
  refine ⟨predictMatrix_length cs, ?_⟩
  intro c _
  exact ⟨rfl, rfl, rfl, rfl, rfl, rfl, rfl, rfl, rfl, rfl, rfl, rfl, rfl, rfl, rfl, rfl, rfl, rfl, rfl, rfl, rfl, rfl, rfl, rfl, rfl, rfl, rfl, rfl, rfl, rfl, rfl, rfl, rfl, rfl, rfl, rfl, rfl, rfl, rfl, rfl⟩

/-- Witness for C2 at a singleton candidate set. -/
theorem c2_feature_array_witness :
    (features_to_array cfDefault).length = 39 ∧
    (features_to_array cfDefault).getD 0 0 = cfDefault.dtw_raw ∧
    (features_to_array cfDefault).getD 38 0 = cfDefault.faiss_dtw_interaction := by
  have h := (c2_feature_array_39_fixed_order [cfDefault]).2 cfDefault
    (List.mem_singleton_self _)
  exact ⟨h.1, h.2.1, rfl⟩


lemma processCluster_foldl_none (coord : Char → Option Point)
    (swipe_path : List Point) (vocab : ℤ → Option (List String))
    (vocabKeys : ℤ → Option String) (lm_scores : List ℝ) :
    ∀ l : List (ℤ × ℝ),
      l.foldl (processCluster coord swipe_path vocab vocabKeys lm_scores)
        none = none := by
  intro l
  induction l with
  | nil => rfl
  | cons p rest ih => rw [List.foldl_cons]; exact ih

lemma processWord_foldl_none (coord : Char → Option Point)
    (swipe_path : List Point) (p : ℤ × ℝ) (vocabKeys : ℤ → Option String)
    (lm_scores : List ℝ) :
    ∀ l : List String,
      l.foldl (processWord coord swipe_path p vocabKeys lm_scores) none =
        none := by
  intro l
  induction l with
  | nil => rfl
  | cons w rest ih => rw [List.foldl_cons]; exact ih

/-- The word loop of one cluster only appends candidates, never changes the
rank, and every appended candidate carries the current cluster rank and the
canonical-path-derived field values of this cluster. -/
lemma processWord_fold_ext (coord : Char → Option Point)
    (swipe_path : List Point) (p : ℤ × ℝ) (vocabKeys : ℤ → Option String)
    (lm_scores : List ℝ) :
    ∀ (ws : List String) (st : Pass1State),
      ws.foldl (processWord coord swipe_path p vocabKeys lm_scores)
          (some st) = none ∨
      ∃ st' ext,
        ws.foldl (processWord coord swipe_path p vocabKeys lm_scores)
          (some st) = some st' ∧
        st'.rank = st.rank ∧ st'.temps = st.temps ++ ext ∧
        ∀ t ∈ ext, t.faiss_rank = st.rank ∧
          fieldsOf t = clusterFieldsOpt coord swipe_path (vocabKeys p.1) := by
  intro ws
  induction ws with
  | nil =>
    intro st
    exact Or.inr ⟨st, [], rfl, rfl, by simp, by simp⟩
  | cons w rest ih =>
    intro st
    rw [List.foldl_cons]
    by_cases hseen : w ∈ st.seen
    · have hstep : processWord coord swipe_path p vocabKeys lm_scores
          (some st) w = some st := by
        rw [processWord]
        simp only [Option.some_bind]
        rw [if_pos hseen]
      rw [hstep]
      exact ih st
    · cases hvk : vocabKeys p.1 with
      | none =>
        have hstep : processWord coord swipe_path p vocabKeys lm_scores
            (some st) w = none := by
          rw [processWord]
          simp only [Option.some_bind]
          rw [if_neg hseen, hvk]
          rfl
        rw [hstep]
        exact Or.inl (processWord_foldl_none _ _ _ _ _ rest)
      | some canonical =>
        have hstep : ∃ st₁,
            processWord coord swipe_path p vocabKeys lm_scores (some st) w =
              some st₁ ∧ st₁.rank = st.rank ∧
            ∃ tnew, st₁.temps = st.temps ++ [tnew] ∧
              tnew.faiss_rank = st.rank ∧
              fieldsOf tnew = clusterFields coord swipe_path canonical := by
          rw [processWord]
          simp only [Option.some_bind]
          rw [if_neg hseen, hvk]
          simp only [Option.some_bind]
          exact ⟨_, rfl, rfl, _, rfl, rfl, rfl⟩
        obtain ⟨st₁, hst₁, hrank₁, tnew, htemps₁, hrankt, hfld⟩ := hstep
        rw [hst₁]
        rcases ih st₁ with hnone | ⟨st', ext, hfold, hr, ht, hext⟩
        · exact Or.inl hnone
        · refine Or.inr ⟨st', tnew :: ext, hfold, by rw [hr, hrank₁], ?_, ?_⟩
          · rw [ht, htemps₁]
            simp
          · intro t htmem
            rcases List.mem_cons.mp htmem with rfl | hmem'
            · exact ⟨hrankt, hfld⟩
            · have h2 := hext t hmem'
              exact ⟨by rw [h2.1, hrank₁], by rw [h2.2, hvk]⟩

/-- Invariant of the first pass: every collected candidate's `faiss_rank`
is below the running rank counter, and candidates with equal rank share the
canonical-path-derived field values. -/
def TempsInv (st : Pass1State) : Prop :=
  (∀ t ∈ st.temps, t.faiss_rank < st.rank) ∧
  (∀ t1 ∈ st.temps, ∀ t2 ∈ st.temps,
    t1.faiss_rank = t2.faiss_rank → fieldsOf t1 = fieldsOf t2)

lemma processCluster_fold_inv (coord : Char → Option Point)
    (swipe_path : List Point) (vocab : ℤ → Option (List String))
    (vocabKeys : ℤ → Option String) (lm_scores : List ℝ) :
    ∀ (cands : List (ℤ × ℝ)) (st : Pass1State), TempsInv st →
      ∀ st', cands.foldl
          (processCluster coord swipe_path vocab vocabKeys lm_scores)
          (some st) = some st' →
        TempsInv st' := by
  intro cands
  induction cands with
  | nil =>
    intro st hst st' h
    cases h
    exact hst
  | cons p rest ih =>
    intro st hst st' h
    rw [List.foldl_cons] at h
    rcases hcl : processCluster coord swipe_path vocab vocabKeys lm_scores
        (some st) p with _ | st₂
    · rw [hcl, processCluster_foldl_none] at h
      cases h
    · rw [hcl] at h
      refine ih st₂ ?_ st' h
      rw [processCluster] at hcl
      simp only [Option.some_bind] at hcl
      cases hv : vocab p.1 with
      | none => rw [hv] at hcl; cases hcl
      | some ws =>
        rw [hv] at hcl
        simp only [Option.some_bind] at hcl
        rcases processWord_fold_ext coord swipe_path p vocabKeys lm_scores
            ws st with hnone | ⟨st₁, ext, hfold, hr, ht, hext⟩
        · rw [hnone] at hcl
          cases hcl
        · rw [hfold] at hcl
          simp only [Option.map_some'] at hcl
          cases hcl
          constructor
          · intro t htm
            simp only at htm
            rw [ht] at htm
            rcases List.mem_append.mp htm with hold | hnew
            · have := hst.1 t hold
              simp only [hr]
              omega
            · have := (hext t hnew).1
              simp only [hr]
              omega
          · intro t1 ht1 t2 ht2 hre
            simp only at ht1 ht2
            rw [ht] at ht1 ht2
            rcases List.mem_append.mp ht1 with h1 | h1 <;>
              rcases List.mem_append.mp ht2 with h2 | h2
            · exact hst.2 t1 h1 t2 h2 hre
            · exact absurd hre (by
                have ha := hst.1 t1 h1
                have hb := (hext t2 h2).1
                omega)
            · exact absurd hre (by
                have ha := hst.1 t2 h2
                have hb := (hext t1 h1).1
                omega)
            · rw [(hext t1 h1).2, (hext t2 h2).2]

/-- The first pass establishes the invariant. -/
lemma computeTemps_inv (coord : Char → Option Point)
    (swipe_path : List Point) (faiss_results : List (ℤ × ℝ))
    (vocab : ℤ → Option (List String)) (vocabKeys : ℤ → Option String)
    (lm_scores : List ℝ) (st : Pass1State)
    (h : computeTemps coord swipe_path faiss_results vocab vocabKeys
      lm_scores = some st) : TempsInv st := by
  refine processCluster_fold_inv coord swipe_path vocab vocabKeys lm_scores
    faiss_results _ ?_ st h
  exact ⟨by simp, by simp⟩

lemma getD_range_map {β : Type} (g : ℕ → β) (n k : ℕ) (hk : k < n)
    (d : β) : ((List.range n).map g).getD k d = g k := by
  rw [List.getD_eq_getElem _ _ (by simpa using hk)]
  simp

/-- Entry `k` of the second pass is the enhanced record of temp `k`. -/
lemma compute_all_features_getD (coord : Char → Option Point)
    (swipe_path : List Point) (faiss_results : List (ℤ × ℝ))
    (vocab : ℤ → Option (List String)) (vocabKeys : ℤ → Option String)
    (lm_scores : List ℝ) (dtwIdxs : List ℕ) (st : Pass1State)
    (hst : computeTemps coord swipe_path faiss_results vocab vocabKeys
      lm_scores = some st) (res : List CandidateFeatures)
    (h : compute_all_features coord swipe_path faiss_results vocab vocabKeys
      lm_scores dtwIdxs = some res) (k : ℕ) (hk : k < st.temps.length) :
    res.length = st.temps.length ∧
    res.getD k cfDefault =
      compute_enhanced_features (st.temps.getD k tempDefault).word
        (st.temps.getD k tempDefault).lm_score
        (st.temps.getD k tempDefault).faiss_distance
        ((st.temps.getD k tempDefault).faiss_rank : ℤ)
        (st.temps.getD k tempDefault).dtw_normalized_by_max
        (((dtwRanks dtwIdxs st.temps.length).getD k 0 : ℕ) : ℤ)
        (st.temps.map (·.lm_score)) (st.temps.map (·.faiss_distance))
        (st.temps.map (·.dtw_normalized_by_max))
        (st.temps.getD k tempDefault).dtw_raw
        (st.temps.getD k tempDefault).dtw_normalized_by_max
        (st.temps.getD k tempDefault).dtw_normalized_by_min
        (st.temps.getD k tempDefault).dtw_normalized_by_sum
        ((st.temps.getD k tempDefault).len_swipe : ℤ)
        ((st.temps.getD k tempDefault).len_word : ℤ)
        (st.temps.getD k tempDefault).path_length_ratio
        ((st.temps.getD k tempDefault).word_length : ℤ) := by
  rw [compute_all_features, hst, Option.map_some'] at h
  cases h
  constructor
  · simp
  · exact getD_range_map _ _ _ hk _

/-- **C9** — any two candidates produced by `compute_all_features` from the
same cluster (equivalently, with the same `faiss_rank`, since the rank
counter increments once per cluster) have identical `dtw_raw`,
`dtw_normalized_by_max`, `dtw_normalized_by_min`, `dtw_normalized_by_sum`
and `len_word`: the ideal keyboard path is derived from the cluster's
canonical spelling (`vocabKeys` entry), not from each candidate word's own
spelling. -/
theorem c9_same_cluster_same_dtw_fields (coord : Char → Option Point)
    (swipe_path : List Point) (faiss_results : List (ℤ × ℝ))
    (vocab : ℤ → Option (List String)) (vocabKeys : ℤ → Option String)
    (lm_scores : List ℝ) (dtwIdxs : List ℕ) (res : List CandidateFeatures)
    (h : compute_all_features coord swipe_path faiss_results vocab vocabKeys
      lm_scores dtwIdxs = some res)
    (i j : ℕ) (hi : i < res.length) (hj : j < res.length)
    (hrank : (res.getD i cfDefault).faiss_rank =
      (res.getD j cfDefault).faiss_rank) :
    (res.getD i cfDefault).dtw_raw = (res.getD j cfDefault).dtw_raw ∧
    (res.getD i cfDefault).dtw_normalized_by_max =
      (res.getD j cfDefault).dtw_normalized_by_max ∧
    (res.getD i cfDefault).dtw_normalized_by_min =
      (res.getD j cfDefault).dtw_normalized_by_min ∧
    (res.getD i cfDefault).dtw_normalized_by_sum =
      (res.getD j cfDefault).dtw_normalized_by_sum ∧
    (res.getD i cfDefault).len_word = (res.getD j cfDefault).len_word := by
  have h' := h
  rw [compute_all_features] at h'
  obtain ⟨st, hst, hres⟩ := Option.map_eq_some'.mp h'
  have hinv := computeTemps_inv coord swipe_path faiss_results vocab
    vocabKeys lm_scores st hst
  have hlen : res.length = st.temps.length := by
    rw [← hres]
    simp
  have hi' : i < st.temps.length := hlen ▸ hi
  have hj' : j < st.temps.length := hlen ▸ hj
  have hgi := (compute_all_features_getD coord swipe_path faiss_results
    vocab vocabKeys lm_scores dtwIdxs st hst res h i hi').2
  have hgj := (compute_all_features_getD coord swipe_path faiss_results
    vocab vocabKeys lm_scores dtwIdxs st hst res h j hj').2
  rw [hgi, hgj] at hrank ⊢
  have hmi : st.temps.getD i tempDefault ∈ st.temps := by
    rw [List.getD_eq_getElem _ _ hi']
    exact List.getElem_mem _
  have hmj : st.temps.getD j tempDefault ∈ st.temps := by
    rw [List.getD_eq_getElem _ _ hj']
    exact List.getElem_mem _
  have hr : ((st.temps.getD i tempDefault).faiss_rank : ℤ) =
      ((st.temps.getD j tempDefault).faiss_rank : ℤ) := hrank
  have hreq : (st.temps.getD i tempDefault).faiss_rank =
      (st.temps.getD j tempDefault).faiss_rank := Int.ofNat_inj.mp hr
  have hf := hinv.2 _ hmi _ hmj hreq
  simp only [fieldsOf, Prod.mk.injEq] at hf
  exact ⟨hf.1, hf.2.1, hf.2.2.1, hf.2.2.2.1,
    congrArg (fun n : ℕ => (n : ℤ)) hf.2.2.2.2⟩

/-- Witness for C9: both candidates of the witness cluster share the five
canonical-path-derived feature values. -/
theorem c9_same_cluster_witness :
    (resW.getD 0 cfDefault).dtw_raw = (resW.getD 1 cfDefault).dtw_raw ∧
    (resW.getD 0 cfDefault).dtw_normalized_by_max =
      (resW.getD 1 cfDefault).dtw_normalized_by_max ∧
    (resW.getD 0 cfDefault).dtw_normalized_by_min =
      (resW.getD 1 cfDefault).dtw_normalized_by_min ∧
    (resW.getD 0 cfDefault).dtw_normalized_by_sum =
      (resW.getD 1 cfDefault).dtw_normalized_by_sum ∧
    (resW.getD 0 cfDefault).len_word = (resW.getD 1 cfDefault).len_word :=
  c9_same_cluster_same_dtw_fields coordW [] [((0 : ℤ), (2 : ℝ))] vocabW vkW
    [] [0, 1] resW (by rfl) 0 1 (by decide) (by decide) (by rfl)

end HeyEye

